import Mathlib

/-!
# Verification of the VRChat world-data aggregation pipeline

Shallow embedding of `scripts/process_vrchat_analytics.py` (current variant,
namespace `PVA`) and `scripts/aggregate_worlds.py` (older variant, namespace
`AW`), together with proofs about the claims of the specification.

Modelling conventions:
* Python values appearing in parsed JSON records are embedded as `PyVal`
  (`None`, booleans, numbers, strings, lists, dicts).  Python floats and ints
  are both modelled by exact rationals `ℚ`; `round(x, 2)` is modelled as exact
  round-half-to-even of the rational value at two decimal places.
* File discovery/parsing and CSV serialisation are out of scope (the spec
  treats them as external collaborators); the aggregation functions consume an
  explicit list of already-parsed records and produce lists of row values.
* Python string-to-number coercion (`int(s)`, `float(s)`) is modelled for
  optionally-signed decimal literals; exotic forms (underscores, exponents,
  `inf`/`nan`) are not modelled and fail to parse, which lands in the same
  defaulting path (`except: ... = 0`) that the scripts use for unparseable
  input.
* `str(x)` for non-string scalars is modelled faithfully for the cases the
  scripts can hit with well-formed data (`None`, booleans, integers); the
  decimal rendering of non-integer floats and the `repr` of containers are
  given fixed placeholder encodings, none of which any claim depends on.
* Python dicts preserve insertion order; the accumulator mapping is modelled
  as an association list where a fresh key is appended at the end, matching
  `defaultdict` insertion-order iteration.
* Python dict keys must be hashable; a record whose resolved identifier is a
  list or dict would raise `TypeError` in `world_data[world_id]`.  That crash
  is outside the total model; identifier values of scalar shape (the only
  ones appearing in real data) behave exactly as in the source.
-/

mutual
/-- A parsed JSON/Python value as handled by the scripts. -/
inductive PyVal where
  | pynull : PyVal
  | pybool (b : Bool) : PyVal
  | num (q : ℚ) : PyVal
  | str (s : String) : PyVal
  | list (elems : PyList) : PyVal
  | dict (entries : PyDict) : PyVal
deriving DecidableEq

/-- A Python list of values (spelled out so that all recursion is mutual
structural recursion, which the kernel can evaluate). -/
inductive PyList where
  | nil : PyList
  | cons (head : PyVal) (tail : PyList) : PyList
deriving DecidableEq

/-- A Python dict with string keys, in insertion order. -/
inductive PyDict where
  | nil : PyDict
  | cons (key : String) (val : PyVal) (tail : PyDict) : PyDict
deriving DecidableEq
end

/-- Convert an embedded Python list to a Lean list. -/
def PyList.toList : PyList → List PyVal
  | .nil => []
  | .cons x xs => x :: xs.toList

/-- Build an embedded Python list from a Lean list (for concrete inputs). -/
def PyList.ofList : List PyVal → PyList
  | [] => .nil
  | x :: xs => .cons x (PyList.ofList xs)

/-- Build an embedded Python dict from a key/value list (for concrete inputs). -/
def PyDict.ofList : List (String × PyVal) → PyDict
  | [] => .nil
  | (k, v) :: rest => .cons k v (PyDict.ofList rest)

/-- `d.get(key)`: the first value stored under `key`, if any. -/
def PyDict.get : PyDict → String → Option PyVal
  | .nil, _ => none
  | .cons k v rest, key => if k = key then some v else rest.get key

/-- A record literal: `pyObj [(k, v), ...] = {k: v, ...}`. -/
def pyObj (entries : List (String × PyVal)) : PyVal :=
  .dict (PyDict.ofList entries)

/-- A list literal: `pyArr [v, ...] = [v, ...]`. -/
def pyArr (elems : List PyVal) : PyVal :=
  .list (PyList.ofList elems)

/-- Python truthiness (`bool(v)`) of an embedded value. -/
def PyVal.toBool : PyVal → Bool
  | .pynull => false
  | .pybool b => b
  | .num q => q != 0
  | .str s => s != ""
  | .list .nil => false
  | .list _ => true
  | .dict .nil => false
  | .dict _ => true

/-- Whether the value is a Python mapping (`isinstance(data, dict)`). -/
def PyVal.isDict : PyVal → Bool
  | .dict _ => true
  | _ => false

/-- Whether the value is a Python list (`isinstance(x, list)`). -/
def PyVal.isList : PyVal → Bool
  | .list _ => true
  | _ => false

/-- Python's short-circuit `a or b`: `a` if truthy, else `b`. -/
def pyOr (a b : PyVal) : PyVal :=
  if a.toBool then a else b

/-- Decimal digits to a natural number. -/
def digitsVal (cs : List Char) : ℕ :=
  cs.foldl (fun a c => a * 10 + (c.toNat - 48)) 0

/-- A non-empty all-digit character run. -/
def allDigits (cs : List Char) : Bool :=
  !cs.isEmpty && cs.all Char.isDigit

/-- ASCII whitespace, the common case of what `str.strip()` removes. -/
def isSpaceChar (c : Char) : Bool :=
  c = ' ' || c = '\t' || c = '\n' || c = '\r'

/-- Remove leading and trailing whitespace from a character run. -/
def trimChars (cs : List Char) : List Char :=
  ((cs.dropWhile isSpaceChar).reverse.dropWhile isSpaceChar).reverse

/-- `s.strip()` (written on the character list so the kernel can evaluate it). -/
def pyStrip (s : String) : String :=
  String.mk (trimChars s.data)

/-- `int(s)` for an optionally signed decimal integer literal, `none` when
Python would raise `ValueError`. -/
def parsePyInt (s : String) : Option ℤ :=
  match trimChars s.data with
  | '-' :: rest => if allDigits rest then some (-(digitsVal rest : ℤ)) else none
  | '+' :: rest => if allDigits rest then some (digitsVal rest : ℤ) else none
  | cs => if allDigits cs then some (digitsVal cs : ℤ) else none

/-- Unsigned decimal literal with optional fractional part, as accepted by
`float(s)` (exponents are not modelled). -/
def parseDecFrac (cs : List Char) : Option ℚ :=
  let ip := cs.takeWhile Char.isDigit
  match cs.dropWhile Char.isDigit with
  | [] => if ip.isEmpty then none else some (digitsVal ip : ℚ)
  | '.' :: fp =>
      if fp.all Char.isDigit && (!ip.isEmpty || !fp.isEmpty) then
        some ((digitsVal ip : ℚ) + (digitsVal fp : ℚ) / (10 ^ fp.length : ℚ))
      else none
  | _ => none

/-- `float(s)`; `none` when Python would raise `ValueError`. -/
def parsePyFloat (s : String) : Option ℚ :=
  match trimChars s.data with
  | '-' :: rest => (parseDecFrac rest).map (fun q => -q)
  | '+' :: rest => parseDecFrac rest
  | cs => parseDecFrac cs

/-- Truncation toward zero, matching `int(float)`.  (`Rat.floor`/`Rat.ceil`
are the computable Batteries versions, kept so the kernel can evaluate.) -/
def ratTrunc (q : ℚ) : ℤ :=
  if 0 ≤ q then q.floor else q.ceil

/-- `int(v)`: `none` when Python would raise (`TypeError`/`ValueError`). -/
def pyInt : PyVal → Option ℤ
  | .num q => some (ratTrunc q)
  | .str s => parsePyInt s
  | .pybool b => some (if b then 1 else 0)
  | _ => none

/-- `float(v)`: `none` when Python would raise (`TypeError`/`ValueError`). -/
def pyFloat : PyVal → Option ℚ
  | .num q => some q
  | .str s => parsePyFloat s
  | .pybool b => some (if b then 1 else 0)
  | _ => none

/-- `str(v)`.  Exact for strings, `None`, booleans and integral numbers; the
decimal rendering of non-integral floats and the `repr` of containers are
placeholders (no claim depends on them). -/
def pyStr : PyVal → String
  | .pynull => "None"
  | .pybool b => if b then "True" else "False"
  | .num q => if q.den = 1 then toString q.num else toString q.num ++ "/" ++ toString q.den
  | .str s => s
  | .list _ => "[...]"
  | .dict _ => "{...}"

/-- Round half to even to an integer (Python's `round`): the floor when the
fractional part is below a half, the ceiling when above, the even neighbour
on a tie. -/
def roundHalfEven (q : ℚ) : ℤ :=
  if q - (q.floor : ℚ) < 1 / 2 then q.floor
  else if 1 / 2 < q - (q.floor : ℚ) then q.floor + 1
  else if q.floor % 2 = 0 then q.floor else q.floor + 1

/-- `round(q, 2)` on the exact rational value. -/
def pyRound2 (q : ℚ) : ℚ :=
  (roundHalfEven (q * 100) : ℚ) / 100


/-! ## Shared record normalization (identical in both scripts) -/

/-- `safe_get(data, key)` with the scripts' (always-used) default `""`:
`data.get(key, "")` when `data` is a dict, else `""`. -/
def safe_get (data : PyVal) (key : String) : PyVal :=
  match data with
  | .dict entries => (entries.get key).getD (.str "")
  | _ => .str ""

/-- Identifier resolution: `safe_get('id')`, falling back to
`safe_get('worldId') or safe_get('world_id')`; `none` when the result is
falsy (the "Found world without ID, skipping" path). -/
def resolveWorldId (world : PyVal) : Option PyVal :=
  let wid := safe_get world "id"
  let wid := if wid.toBool then wid else pyOr (safe_get world "worldId") (safe_get world "world_id")
  if wid.toBool then some wid else none

/-- The `occupants is None or occupants == ""` test that drives the
occupant-field fallback chain. -/
def isMissingOcc : PyVal → Bool
  | .pynull => true
  | .str s => s == ""
  | _ => false

/-- Occupant-count resolution chain: `occupants`, then `currentUsers`, then
`users`, then the literal `0`. -/
def occupantsSource (world : PyVal) : PyVal :=
  let o1 := safe_get world "occupants"
  if isMissingOcc o1 then
    let o2 := safe_get world "currentUsers"
    if isMissingOcc o2 then
      let o3 := safe_get world "users"
      if isMissingOcc o3 then .num 0 else o3
    else o2
  else o1

/-- The coerced occupant count: `int(...)` of the resolved source, `0` on
coercion failure (`except (ValueError, TypeError)`). -/
def occupantsOf (world : PyVal) : ℤ :=
  (pyInt (occupantsSource world)).getD 0

/-- `float(x) if x else 0`, with coercion failure defaulting to `0`; used for
`heat` and `popularity`. -/
def coerceSignal (v : PyVal) : ℚ :=
  if v.toBool then (pyFloat v).getD 0 else 0

/-- Per-record value for the sticky `name` field. -/
def nameContrib (world : PyVal) : PyVal := safe_get world "name"

/-- Per-record value for the sticky `image_url` field. -/
def imageContrib (world : PyVal) : PyVal :=
  pyOr (safe_get world "imageUrl") (safe_get world "image_url")

/-- Per-record value for the sticky `author_id` field. -/
def authorIdContrib (world : PyVal) : PyVal :=
  pyOr (safe_get world "authorId") (safe_get world "author_id")

/-- Per-record value for the sticky `author_name` field. -/
def authorNameContrib (world : PyVal) : PyVal :=
  pyOr (safe_get world "authorName") (safe_get world "author_name")

/-- Per-record value for the sticky `heat` field. -/
def heatContrib (world : PyVal) : ℚ := coerceSignal (safe_get world "heat")

/-- Per-record value for the sticky `popularity` field. -/
def popularityContrib (world : PyVal) : ℚ := coerceSignal (safe_get world "popularity")

/-! ## Association-list state (Python dict in insertion order) -/

/-- Replace the binding of `k` in place, or append it at the end (a fresh
`defaultdict` key is appended in insertion order). -/
def setAssoc {α β : Type} [DecidableEq α] : List (α × β) → α → β → List (α × β)
  | [], k, v => [(k, v)]
  | (k', v') :: rest, k, v =>
      if k' = k then (k, v) :: rest else (k', v') :: setAssoc rest k v

/-- Lookup in the association-list state. -/
def assocLookup {α β : Type} [DecidableEq α] : List (α × β) → α → Option β
  | [], _ => none
  | (k', v) :: rest, k => if k' = k then some v else assocLookup rest k

/-- Stable descending insertion: walk past strictly greater keys, settle
before the first key that is not strictly greater (so an element inserted
for an earlier list position lands before later equal keys). -/
def insertDesc {α : Type} (key : α → ℚ) (x : α) : List α → List α
  | [] => [x]
  | y :: ys => if key y > key x then y :: insertDesc key x ys else x :: y :: ys

/-- Stable sort by `key` descending: the behaviour guaranteed by Python's
`list.sort(key=..., reverse=True)` (stable, descending). -/
def sortByDesc {α : Type} (key : α → ℚ) : List α → List α
  | [] => []
  | x :: xs => insertDesc key x (sortByDesc key xs)

/-! ## Current variant: `scripts/process_vrchat_analytics.py` (namespace `PVA`) -/

namespace PVA

/-- `format_bioLinks(bio_links)`: `"NA"` for falsy input; lists join their
truthy elements' `str()` with `";"`; scalars are `str(...)` and stripped,
empty-after-strip giving `"NA"`. -/
def format_bioLinks (bio_links : PyVal) : String :=
  if !bio_links.toBool then "NA"
  else match bio_links with
    | .list elems =>
        if elems.toList.isEmpty then "NA"
        else String.intercalate ";" ((elems.toList.filter PyVal.toBool).map pyStr)
    | v =>
        let link_str := pyStrip (pyStr v)
        if link_str == "" then "NA" else link_str

/-- `format_bio(bio)`: `"NA"` for falsy input, else `str(bio).strip()` with
empty-after-strip giving `"NA"`. -/
def format_bio (bio : PyVal) : String :=
  if !bio.toBool then "NA"
  else
    let bio_str := pyStrip (pyStr bio)
    if bio_str == "" then "NA" else bio_str

/-- Per-record value for the sticky `bioLinks` field (already formatted, as
in lines 209-213 of the script). -/
def bioLinksContrib (world : PyVal) : String :=
  format_bioLinks (pyOr (safe_get world "bioLinks") (safe_get world "bio_links"))

/-- Per-record value for the sticky `bio` field. -/
def bioContrib (world : PyVal) : String :=
  format_bio (pyOr (safe_get world "bio") (safe_get world "description"))

/-- The per-world accumulator of `aggregate_world_data` (the `defaultdict`
value).  `min_occupants = none` encodes the `float('inf')` start sentinel. -/
structure WorldInfo where
  occupants_sum : ℤ
  occurrences : ℕ
  max_occupants : ℤ
  min_occupants : Option ℤ
  name : PyVal
  image_url : PyVal
  author_id : PyVal
  author_name : PyVal
  bioLinks : String
  bio : String
  heat : ℚ
  popularity : ℚ
deriving DecidableEq

/-- The `defaultdict` initial value. -/
def defaultWorldInfo : WorldInfo where
  occupants_sum := 0
  occurrences := 0
  max_occupants := 0
  min_occupants := none
  name := .str ""
  image_url := .str ""
  author_id := .str ""
  author_name := .str ""
  bioLinks := ""
  bio := ""
  heat := 0
  popularity := 0

/-- One fold step of `aggregate_world_data` (lines 170-234): the record's
occupant count is accumulated, extrema tracked, and sticky fields filled
following the script's guards. -/
def stepRecord (info : WorldInfo) (world : PyVal) : WorldInfo :=
  let occupants := occupantsOf world
  { occupants_sum := info.occupants_sum + occupants
    occurrences := info.occurrences + 1
    max_occupants := max info.max_occupants occupants
    min_occupants :=
      match info.min_occupants with
      | none => some occupants
      | some m => some (min m occupants)
    name := if info.name.toBool then info.name else nameContrib world
    image_url := if info.image_url.toBool then info.image_url else imageContrib world
    author_id := if info.author_id.toBool then info.author_id else authorIdContrib world
    author_name := if info.author_name.toBool then info.author_name else authorNameContrib world
    bioLinks :=
      if info.bioLinks == "" || info.bioLinks == "NA" then
        let formatted_links := bioLinksContrib world
        if formatted_links != "NA" then formatted_links else info.bioLinks
      else info.bioLinks
    bio :=
      if info.bio == "" || info.bio == "NA" then
        let formatted_bio := bioContrib world
        if formatted_bio != "NA" then formatted_bio else info.bio
      else info.bio
    heat := if info.heat = 0 then heatContrib world else info.heat
    popularity := if info.popularity = 0 then popularityContrib world else info.popularity }

/-- Process one raw record: resolve the identifier (skipping the record when
none resolves) and fold it into its world's accumulator. -/
def processRecord (world_data : List (PyVal × WorldInfo)) (world : PyVal) :
    List (PyVal × WorldInfo) :=
  match resolveWorldId world with
  | none => world_data
  | some world_id =>
      let world_info := (assocLookup world_data world_id).getD defaultWorldInfo
      setAssoc world_data world_id (stepRecord world_info world)

/-- `aggregate_world_data`, over the already-parsed record sequence. -/
def aggregate_world_data (recs : List PyVal) : List (PyVal × WorldInfo) :=
  recs.foldl processRecord []

end PVA

namespace PVA

/-- The environment-derived policy of `load_config` (data location is I/O and
out of scope).  Defaults: 7 occurrences, $15 spend, factor 1.0. -/
structure Config where
  MIN_OCCURRENCES : ℤ
  MIN_MARKETING_SPEND : ℚ
  HEAT_POPULARITY_FACTOR : ℚ
deriving DecidableEq

/-- The default configuration of `load_config`. -/
def defaultConfig : Config where
  MIN_OCCURRENCES := 7
  MIN_MARKETING_SPEND := 15
  HEAT_POPULARITY_FACTOR := 1

/-- `calculate_business_metrics` (lines 107-131): both metrics are computed
from the raw values and only rounded at the end — in particular the spend is
derived from the *unrounded* estimated orders. -/
def calculate_business_metrics (avg_occupants heat_popularity_factor : ℚ) : ℚ × ℚ :=
  let daily_visitors := avg_occupants * heat_popularity_factor
  let estimated_orders := daily_visitors * 30 / 10000
  let max_marketing_spend := estimated_orders * 400 * 0.35
  (pyRound2 estimated_orders, pyRound2 max_marketing_spend)

/-- A surviving world's row data after `calculate_averages_and_sort` mutated
the accumulator dict: accumulator fields plus the derived entries, with the
`float('inf')` sentinel of `min_occupants` replaced by `0`. -/
structure WorldSummary where
  occupants_sum : ℤ
  occurrences : ℕ
  max_occupants : ℤ
  min_occupants : ℤ
  name : PyVal
  image_url : PyVal
  author_id : PyVal
  author_name : PyVal
  bioLinks : String
  bio : String
  heat : ℚ
  popularity : ℚ
  average_occupants : ℚ
  estimated_orders : ℚ
  max_marketing_spend : ℚ
deriving DecidableEq

/-- Derivation of a summary from an accumulator (lines 258-270): the raw
average feeds `calculate_business_metrics`; the stored average is rounded. -/
def mkSummary (info : WorldInfo) (config : Config) : WorldSummary :=
  let average_occupants := (info.occupants_sum : ℚ) / (info.occurrences : ℚ)
  let metrics := calculate_business_metrics average_occupants config.HEAT_POPULARITY_FACTOR
  { occupants_sum := info.occupants_sum
    occurrences := info.occurrences
    max_occupants := info.max_occupants
    min_occupants := (info.min_occupants).getD 0
    name := info.name
    image_url := info.image_url
    author_id := info.author_id
    author_name := info.author_name
    bioLinks := info.bioLinks
    bio := info.bio
    heat := info.heat
    popularity := info.popularity
    average_occupants := pyRound2 average_occupants
    estimated_orders := metrics.1
    max_marketing_spend := metrics.2 }

/-- The filter body of `calculate_averages_and_sort` (lines 256-274), in the
accumulator map's insertion order: keep worlds with enough occurrences whose
derived spend passes the threshold. -/
def survivors (world_data : List (PyVal × WorldInfo)) (config : Config) :
    List (PyVal × WorldSummary) :=
  world_data.filterMap fun p =>
    if config.MIN_OCCURRENCES ≤ (p.2.occurrences : ℤ) then
      let s := mkSummary p.2 config
      if config.MIN_MARKETING_SPEND ≤ s.max_marketing_spend then some (p.1, s) else none
    else none

/-- `calculate_averages_and_sort`: filter, derive, then
`world_list.sort(key=lambda x: x[1]['average_occupants'], reverse=True)`
(stable descending). -/
def calculate_averages_and_sort (world_data : List (PyVal × WorldInfo)) (config : Config) :
    List (PyVal × WorldSummary) :=
  sortByDesc (fun p => p.2.average_occupants) (survivors world_data config)

/-- End-to-end pipeline of `main` on parsed records: aggregate then
filter/derive/sort. -/
def pipeline (recs : List PyVal) (config : Config) : List (PyVal × WorldSummary) :=
  calculate_averages_and_sort (aggregate_world_data recs) config

/-- One data row of `write_csv_output` (lines 306-324), as the Python values
placed in the `csv` writer's row list. -/
def csvRow (world_id : PyVal) (info : WorldSummary) : List PyVal :=
  [ if info.name.toBool then info.name else world_id
  , world_id
  , .num info.average_occupants
  , .num (info.occurrences : ℚ)
  , .num (info.max_occupants : ℚ)
  , .num (info.min_occupants : ℚ)
  , .num info.heat
  , .num info.popularity
  , .num info.estimated_orders
  , .num info.max_marketing_spend
  , if info.image_url.toBool then info.image_url else .str "NA"
  , if info.author_id.toBool then info.author_id else .str "NA"
  , if info.author_name.toBool then info.author_name else .str "NA"
  , .str info.bio
  , .str info.bioLinks ]

/-- All data rows written by `write_csv_output` (header excluded). -/
def csvRows (world_list : List (PyVal × WorldSummary)) : List (List PyVal) :=
  world_list.map fun p => csvRow p.1 p.2

end PVA

/-! ## Older variant: `scripts/aggregate_worlds.py` (namespace `AW`) -/

namespace AW

/-- `format_social_links`: `""` for falsy input; lists join *all* elements'
`str()` with `"; "`; scalars are `str(...)` (no strip, no `"NA"`). -/
def format_social_links (bio_links : PyVal) : String :=
  if !bio_links.toBool then ""
  else match bio_links with
    | .list elems => String.intercalate "; " (elems.toList.map pyStr)
    | v => pyStr v

/-- The per-world accumulator of the older `aggregate_world_data`
(lines 85-94): no extrema, no heat/popularity, raw `bio_description`. -/
structure WorldInfo where
  occupants_sum : ℤ
  occurrences : ℕ
  name : PyVal
  image_url : PyVal
  author_id : PyVal
  author_name : PyVal
  social_links : String
  bio_description : PyVal
deriving DecidableEq

/-- The older `defaultdict` initial value. -/
def defaultWorldInfo : WorldInfo where
  occupants_sum := 0
  occurrences := 0
  name := .str ""
  image_url := .str ""
  author_id := .str ""
  author_name := .str ""
  social_links := ""
  bio_description := .str ""

/-- One fold step of the older `aggregate_world_data` (lines 110-147). -/
def stepRecord (info : WorldInfo) (world : PyVal) : WorldInfo :=
  let occupants := occupantsOf world
  { occupants_sum := info.occupants_sum + occupants
    occurrences := info.occurrences + 1
    name := if info.name.toBool then info.name else nameContrib world
    image_url := if info.image_url.toBool then info.image_url else imageContrib world
    author_id := if info.author_id.toBool then info.author_id else authorIdContrib world
    author_name := if info.author_name.toBool then info.author_name else authorNameContrib world
    social_links :=
      if info.social_links == "" then
        format_social_links (pyOr (safe_get world "bioLinks") (safe_get world "bio_links"))
      else info.social_links
    bio_description :=
      if info.bio_description.toBool then info.bio_description
      else pyOr (pyOr (safe_get world "bio") (safe_get world "description"))
        (safe_get world "bio_description") }

/-- Process one raw record of the older variant (same identifier
resolution and skip path as the current one). -/
def processRecord (world_data : List (PyVal × WorldInfo)) (world : PyVal) :
    List (PyVal × WorldInfo) :=
  match resolveWorldId world with
  | none => world_data
  | some world_id =>
      let world_info := (assocLookup world_data world_id).getD defaultWorldInfo
      setAssoc world_data world_id (stepRecord world_info world)

/-- The older `aggregate_world_data`, over the parsed record sequence. -/
def aggregate_world_data (recs : List PyVal) : List (PyVal × WorldInfo) :=
  recs.foldl processRecord []

/-- Older summary: accumulator fields plus the rounded average. -/
structure WorldSummary where
  occupants_sum : ℤ
  occurrences : ℕ
  name : PyVal
  image_url : PyVal
  author_id : PyVal
  author_name : PyVal
  social_links : String
  bio_description : PyVal
  average_occupants : ℚ
deriving DecidableEq

/-- Older summary derivation (lines 164-168). -/
def mkSummary (info : WorldInfo) : WorldSummary :=
  { occupants_sum := info.occupants_sum
    occurrences := info.occurrences
    name := info.name
    image_url := info.image_url
    author_id := info.author_id
    author_name := info.author_name
    social_links := info.social_links
    bio_description := info.bio_description
    average_occupants := pyRound2 ((info.occupants_sum : ℚ) / (info.occurrences : ℚ)) }

/-- The older `calculate_averages_and_sort` (lines 155-173): every world with
`occurrences > 0` survives; same stable descending sort. -/
def calculate_averages_and_sort (world_data : List (PyVal × WorldInfo)) :
    List (PyVal × WorldSummary) :=
  sortByDesc (fun p => p.2.average_occupants)
    (world_data.filterMap fun p =>
      if 0 < p.2.occurrences then some (p.1, mkSummary p.2) else none)

/-- End-to-end older pipeline on parsed records. -/
def pipeline (recs : List PyVal) : List (PyVal × WorldSummary) :=
  calculate_averages_and_sort (aggregate_world_data recs)

end AW

/-! ## Proof-support definitions -/

/-- Both scripts' per-record state update, abstracted over the accumulator
type: skip when no identifier resolves, else fold into that world's entry. -/
def genProcess {β : Type} (step : β → PyVal → β) (dflt : β)
    (st : List (PyVal × β)) (world : PyVal) : List (PyVal × β) :=
  match resolveWorldId world with
  | none => st
  | some world_id => setAssoc st world_id (step ((assocLookup st world_id).getD dflt) world)

/-- The records of the input that resolve to the given world identifier. -/
def recsFor (wid : PyVal) (recs : List PyVal) : List PyVal :=
  recs.filter fun r => resolveWorldId r = some wid

/-- First element satisfying `p`, else the default `d`. -/
def firstD {τ : Type} (p : τ → Bool) (d : τ) : List τ → τ
  | [] => d
  | c :: cs => if p c then c else firstD p d cs

/-- Guarded first-wins fold: keep the current value once `isSet` holds,
otherwise take the new contribution (`if not cur: cur = contrib`). -/
def stick {τ : Type} (isSet : τ → Bool) (cur : τ) (cs : List τ) : τ :=
  cs.foldl (fun a c => if isSet a then a else c) cur

/-- The `bioLinks`/`bio` first-wins fold: overwritable while `""` or `"NA"`,
and only non-`"NA"` contributions are stored. -/
def stickNA (cur : String) (cs : List String) : String :=
  cs.foldl (fun a c => if (a == "" || a == "NA") && c != "NA" then c else a) cur

/-- Keys of an association list are pairwise distinct. -/
def KeysNodup {α β : Type} (l : List (α × β)) : Prop :=
  (l.map Prod.fst).Nodup

namespace PVA

/-- The accumulator a world ends up with: the fold of its own records. -/
def accumulatorFor (wid : PyVal) (recs : List PyVal) : WorldInfo :=
  (recsFor wid recs).foldl stepRecord defaultWorldInfo

end PVA

/-- The identifier/average/occurrences projection compared across the two
variants. -/
def summaryTriple (p : PyVal × PVA.WorldSummary) : PyVal × ℚ × ℕ :=
  (p.1, p.2.average_occupants, p.2.occurrences)

/-- The same projection of the older variant's output. -/
def summaryTripleAW (p : PyVal × AW.WorldSummary) : PyVal × ℚ × ℕ :=
  (p.1, p.2.average_occupants, p.2.occurrences)

/-- The sum/occurrence projection shared by both accumulators. -/
def accProj (i : PVA.WorldInfo) : ℤ × ℕ := (i.occupants_sum, i.occurrences)

/-- The sum/occurrence projection of the older accumulator. -/
def accProjAW (i : AW.WorldInfo) : ℤ × ℕ := (i.occupants_sum, i.occurrences)

/-- The sort key seen through the identifier/average/occurrences
projection. -/
def tripleKey (t : PyVal × ℚ × ℕ) : ℚ := t.2.1

/-- `l` is sorted descending under `key` (non-strict). -/
def SortedDescBy {α : Type} (key : α → ℚ) (l : List α) : Prop :=
  l.Pairwise fun u v => key v ≤ key u

/-- Whether a value is a Python string. -/
def PyVal.isStr : PyVal → Bool
  | .str _ => true
  | _ => false

/-- The `calculate_averages_and_sort` key (`x[1]['average_occupants']`). -/
def avgKey (p : PyVal × PVA.WorldSummary) : ℚ :=
  p.2.average_occupants

/-- The older variant's identical sort key. -/
def avgKeyAW (p : PyVal × AW.WorldSummary) : ℚ :=
  p.2.average_occupants

/-! ## Concrete inputs used by witnesses and counterexamples -/

/-- A well-formed record: world `w` with 100 occupants. -/
def occ100Rec : PyVal := pyObj [("id", .str "w"), ("occupants", .num 100)]

/-- A record whose coerced occupant count is negative. -/
def negOccRec : PyVal := pyObj [("id", .str "w"), ("occupants", .num (-5))]

/-- A record whose `id` is a (truthy) number while `worldId` holds a
non-empty string. -/
def numIdRec : PyVal := pyObj [("id", .num 7), ("worldId", .str "abc")]

/-- A record carrying none of the identifier fields. -/
def noIdRec : PyVal := pyObj [("name", .str "ghost")]

/-- Two observations of world `w` with conflicting sticky values. -/
def stickyRecs : List PyVal :=
  [ pyObj [("id", .str "w"), ("occupants", .num 100), ("name", .str "First"),
      ("heat", .str "2.5"), ("bio", .str "hello")]
  , pyObj [("id", .str "w"), ("occupants", .num 50), ("name", .str "Second"),
      ("heat", .num 9), ("bio", .str "other"), ("imageUrl", .str "http://img")] ]

/-- Worlds A, B, C observed once with occupant counts 10, 50, 30. -/
def orderingRecs : List PyVal :=
  [ pyObj [("id", .str "A"), ("occupants", .num 10)]
  , pyObj [("id", .str "B"), ("occupants", .num 50)]
  , pyObj [("id", .str "C"), ("occupants", .num 30)] ]

/-- World `a` observed 6 times and world `b` observed 7 times. -/
def sixSevenRecs : List PyVal :=
  List.replicate 6 (pyObj [("id", .str "a"), ("occupants", .num 100)]) ++
    List.replicate 7 (pyObj [("id", .str "b"), ("occupants", .num 100)])

/-- World `w` observed 7 times with no bio/social data. -/
def sevenRecs : List PyVal := List.replicate 7 occ100Rec

/-- A policy that lets every aggregated world survive filtering. -/
def permissiveConfig : PVA.Config where
  MIN_OCCURRENCES := 1
  MIN_MARKETING_SPEND := 0
  HEAT_POPULARITY_FACTOR := 1

/-! ## Association-list lemmas -/

theorem assocLookup_setAssoc_self {α β : Type} [DecidableEq α]
    (l : List (α × β)) (k : α) (v : β) :
    assocLookup (setAssoc l k v) k = some v := by
  induction l with
  | nil => simp [setAssoc, assocLookup]
  | cons p rest ih =>
      obtain ⟨k', v'⟩ := p
      by_cases h : k' = k
      · simp [setAssoc, h, assocLookup]
      · simp [setAssoc, h, assocLookup, ih]

theorem assocLookup_setAssoc_ne {α β : Type} [DecidableEq α]
    (l : List (α × β)) (k k2 : α) (v : β) (hne : k ≠ k2) :
    assocLookup (setAssoc l k v) k2 = assocLookup l k2 := by
  induction l with
  | nil => simp [setAssoc, assocLookup, hne]
  | cons p rest ih =>
      obtain ⟨k', v'⟩ := p
      by_cases h : k' = k
      · subst h
        simp [setAssoc, assocLookup, hne]
      · simp [setAssoc, h, assocLookup, ih]

theorem mem_setAssoc {α β : Type} [DecidableEq α]
    (l : List (α × β)) (k : α) (v : β) (p : α × β) (hp : p ∈ setAssoc l k v) :
    p ∈ l ∨ p = (k, v) := by
  induction l with
  | nil =>
      simp [setAssoc] at hp
      exact Or.inr hp
  | cons q rest ih =>
      obtain ⟨k', v'⟩ := q
      by_cases h : k' = k
      · simp [setAssoc, h] at hp
        rcases hp with hp | hp
        · exact Or.inr hp
        · exact Or.inl (List.mem_cons_of_mem _ hp)
      · simp [setAssoc, h] at hp
        rcases hp with hp | hp
        · exact Or.inl (by simp [hp])
        · rcases ih hp with h1 | h1
          · exact Or.inl (List.mem_cons_of_mem _ h1)
          · exact Or.inr h1

theorem mem_keys_setAssoc {α β : Type} [DecidableEq α]
    (l : List (α × β)) (k : α) (v : β) (a : α) :
    a ∈ (setAssoc l k v).map Prod.fst ↔ a ∈ l.map Prod.fst ∨ a = k := by
  induction l with
  | nil => simp [setAssoc]
  | cons q rest ih =>
      obtain ⟨k', v'⟩ := q
      by_cases h : k' = k
      · subst h
        simp [setAssoc]
        tauto
      · simp [setAssoc, h, ih]
        tauto

theorem keysNodup_setAssoc {α β : Type} [DecidableEq α]
    (l : List (α × β)) (k : α) (v : β) (hl : KeysNodup l) :
    KeysNodup (setAssoc l k v) := by
  induction l with
  | nil => simp [setAssoc, KeysNodup]
  | cons q rest ih =>
      obtain ⟨k', v'⟩ := q
      unfold KeysNodup at hl
      simp only [List.map_cons, List.nodup_cons] at hl
      by_cases h : k' = k
      · subst h
        unfold KeysNodup
        rw [setAssoc, if_pos rfl]
        simp only [List.map_cons, List.nodup_cons]
        exact hl
      · unfold KeysNodup
        rw [setAssoc, if_neg h]
        simp only [List.map_cons, List.nodup_cons]
        refine ⟨?_, ih hl.2⟩
        intro hmem
        rcases (mem_keys_setAssoc rest k v k').1 hmem with h1 | h1
        · exact hl.1 h1
        · exact h h1

theorem assocLookup_eq_some_of_mem {α β : Type} [DecidableEq α]
    (l : List (α × β)) (k : α) (v : β) (hl : KeysNodup l) (hmem : (k, v) ∈ l) :
    assocLookup l k = some v := by
  induction l with
  | nil => simp at hmem
  | cons q rest ih =>
      obtain ⟨k', v'⟩ := q
      unfold KeysNodup at hl
      simp only [List.map_cons, List.nodup_cons] at hl
      rcases List.mem_cons.1 hmem with h1 | h1
      · rw [Prod.ext_iff] at h1
        obtain ⟨h2, h3⟩ := h1
        dsimp at h2 h3
        subst h2
        rw [assocLookup, if_pos rfl, h3]
      · have hk : k' ≠ k := by
          intro he
          subst he
          exact hl.1 (List.mem_map_of_mem Prod.fst h1)
        rw [assocLookup, if_neg hk]
        exact ih hl.2 h1

theorem mem_of_assocLookup {α β : Type} [DecidableEq α]
    (l : List (α × β)) (k : α) (v : β) (h : assocLookup l k = some v) :
    (k, v) ∈ l := by
  induction l with
  | nil => simp [assocLookup] at h
  | cons q rest ih =>
      obtain ⟨k', v'⟩ := q
      by_cases hk : k' = k
      · subst hk
        rw [assocLookup, if_pos rfl] at h
        obtain rfl := Option.some.inj h
        exact List.mem_cons_self _ _
      · rw [assocLookup, if_neg hk] at h
        exact List.mem_cons_of_mem _ (ih h)

/-! ## Fold lemmas for the per-record state update -/

theorem foldl_stepOption_some {β : Type} (step : β → PyVal → β) (d : β)
    (l : List PyVal) (i : β) :
    l.foldl (fun o r => some (step (o.getD d) r)) (some i) = some (l.foldl step i) := by
  induction l generalizing i with
  | nil => rfl
  | cons r rest ih => simpa using ih (step i r)

theorem assocLookup_foldl_genProcess {β : Type} (step : β → PyVal → β) (d : β)
    (recs : List PyVal) (st : List (PyVal × β)) (wid : PyVal) :
    assocLookup (recs.foldl (genProcess step d) st) wid =
      (recsFor wid recs).foldl (fun o r => some (step (o.getD d) r)) (assocLookup st wid) := by
  induction recs generalizing st with
  | nil => rfl
  | cons r rest ih =>
      cases hres : resolveWorldId r with
      | none =>
          have hskip : genProcess step d st r = st := by simp [genProcess, hres]
          have hfil : recsFor wid (r :: rest) = recsFor wid rest := by
            simp [recsFor, List.filter_cons, hres]
          simp only [List.foldl_cons, hskip, hfil]
          exact ih st
      | some k =>
          by_cases hk : k = wid
          · subst hk
            have hfil : recsFor k (r :: rest) = r :: recsFor k rest := by
              simp [recsFor, List.filter_cons, hres]
            simp only [List.foldl_cons, hfil]
            rw [ih]
            simp only [genProcess, hres]
            rw [assocLookup_setAssoc_self]
          · have hfil : recsFor wid (r :: rest) = recsFor wid rest := by
              simp [recsFor, List.filter_cons, hres, hk]
            simp only [List.foldl_cons, hfil]
            rw [ih]
            have : assocLookup (genProcess step d st r) wid = assocLookup st wid := by
              simp only [genProcess, hres]
              exact assocLookup_setAssoc_ne st k wid _ hk
            rw [this]

theorem keysNodup_foldl_genProcess {β : Type} (step : β → PyVal → β) (d : β)
    (recs : List PyVal) (st : List (PyVal × β)) (hst : KeysNodup st) :
    KeysNodup (recs.foldl (genProcess step d) st) := by
  induction recs generalizing st with
  | nil => exact hst
  | cons r rest ih =>
      simp only [List.foldl_cons]
      apply ih
      cases hres : resolveWorldId r with
      | none => simpa [genProcess, hres] using hst
      | some k =>
          simp only [genProcess, hres]
          exact keysNodup_setAssoc st k _ hst

theorem foldl_genProcess_invariant {β : Type} (step : β → PyVal → β) (d : β)
    (P : β → Prop) (recs : List PyVal) (st : List (PyVal × β))
    (hstep : ∀ i r, r ∈ recs → (P i ∨ i = d) → P (step i r))
    (hst : ∀ p ∈ st, P p.2) :
    ∀ p ∈ recs.foldl (genProcess step d) st, P p.2 := by
  induction recs generalizing st with
  | nil => exact hst
  | cons r rest ih =>
      simp only [List.foldl_cons]
      apply ih
      · intro i r' hr' hi
        exact hstep i r' (List.mem_cons_of_mem _ hr') hi
      · intro p hp
        cases hres : resolveWorldId r with
        | none =>
            have hskip : genProcess step d st r = st := by simp [genProcess, hres]
            rw [hskip] at hp
            exact hst p hp
        | some k =>
            simp only [genProcess, hres] at hp
            rcases mem_setAssoc st k _ p hp with h1 | h1
            · exact hst p h1
            · subst h1
              apply hstep _ r (List.mem_cons_self _ _)
              cases hlook : assocLookup st k with
              | none => simp [hlook]
              | some i0 =>
                  simp only [hlook, Option.getD_some]
                  exact Or.inl (hst (k, i0) (mem_of_assocLookup st k i0 hlook))

theorem map_setAssoc {α β γ : Type} [DecidableEq α] (f : β → γ)
    (l : List (α × β)) (k : α) (v : β) :
    (setAssoc l k v).map (fun p => (p.1, f p.2)) =
      setAssoc (l.map (fun p => (p.1, f p.2))) k (f v) := by
  induction l with
  | nil => simp [setAssoc]
  | cons q rest ih =>
      obtain ⟨k', v'⟩ := q
      by_cases h : k' = k
      · simp [setAssoc, h]
      · simp [setAssoc, h, ih]

theorem assocLookup_map {α β γ : Type} [DecidableEq α] (f : β → γ)
    (l : List (α × β)) (k : α) :
    assocLookup (l.map (fun p => (p.1, f p.2))) k = (assocLookup l k).map f := by
  induction l with
  | nil => rfl
  | cons q rest ih =>
      obtain ⟨k', v'⟩ := q
      by_cases h : k' = k
      · simp [assocLookup, h]
      · simp [assocLookup, h, ih]

theorem foldl_genProcess_proj {β γ δ : Type}
    (stepN : β → PyVal → β) (dN : β) (stepO : γ → PyVal → γ) (dO : γ)
    (pN : β → δ) (pO : γ → δ)
    (hstep : ∀ iN iO r, pN iN = pO iO → pN (stepN iN r) = pO (stepO iO r))
    (hd : pN dN = pO dO) (recs : List PyVal)
    (stN : List (PyVal × β)) (stO : List (PyVal × γ))
    (hst : stN.map (fun p => (p.1, pN p.2)) = stO.map (fun p => (p.1, pO p.2))) :
    (recs.foldl (genProcess stepN dN) stN).map (fun p => (p.1, pN p.2)) =
      (recs.foldl (genProcess stepO dO) stO).map (fun p => (p.1, pO p.2)) := by
  induction recs generalizing stN stO with
  | nil => exact hst
  | cons r rest ih =>
      simp only [List.foldl_cons]
      apply ih
      cases hres : resolveWorldId r with
      | none => simpa [genProcess, hres] using hst
      | some k =>
          simp only [genProcess, hres]
          rw [map_setAssoc, map_setAssoc, hst]
          have hlook : (assocLookup stN k).map pN = (assocLookup stO k).map pO := by
            rw [← assocLookup_map, ← assocLookup_map, hst]
          have hval : pN (stepN ((assocLookup stN k).getD dN) r)
              = pO (stepO ((assocLookup stO k).getD dO) r) := by
            apply hstep
            cases hN : assocLookup stN k with
            | none =>
                cases hO : assocLookup stO k with
                | none => simpa using hd
                | some iO => rw [hN, hO] at hlook; simp at hlook
            | some iN =>
                cases hO : assocLookup stO k with
                | none => rw [hN, hO] at hlook; simp at hlook
                | some iO =>
                    rw [hN, hO] at hlook
                    simpa using hlook
          rw [hval]

/-! ## Aggregation-level corollaries for the two variants -/

theorem PVA.processRecord_eq_gen :
    PVA.processRecord = genProcess PVA.stepRecord PVA.defaultWorldInfo := rfl

theorem AW.processRecord_eq_gen_old :
    AW.processRecord = genProcess AW.stepRecord AW.defaultWorldInfo := rfl

theorem PVA.assocLookup_aggregate (recs : List PyVal) (wid : PyVal) :
    assocLookup (PVA.aggregate_world_data recs) wid =
      if recsFor wid recs = [] then none else some (PVA.accumulatorFor wid recs) := by
  unfold PVA.aggregate_world_data
  rw [PVA.processRecord_eq_gen, assocLookup_foldl_genProcess]
  unfold PVA.accumulatorFor
  cases hl : recsFor wid recs with
  | nil => rfl
  | cons c l =>
      rw [if_neg (List.cons_ne_nil c l), List.foldl_cons, List.foldl_cons]
      show List.foldl _ (some (PVA.stepRecord PVA.defaultWorldInfo c)) l = _
      rw [foldl_stepOption_some]

theorem AW.assocLookup_aggregate_old (recs : List PyVal) (wid : PyVal) :
    assocLookup (AW.aggregate_world_data recs) wid =
      if recsFor wid recs = [] then none
      else some ((recsFor wid recs).foldl AW.stepRecord AW.defaultWorldInfo) := by
  unfold AW.aggregate_world_data
  rw [AW.processRecord_eq_gen_old, assocLookup_foldl_genProcess]
  cases hl : recsFor wid recs with
  | nil => rfl
  | cons c l =>
      rw [if_neg (List.cons_ne_nil c l), List.foldl_cons, List.foldl_cons]
      show List.foldl _ (some (AW.stepRecord AW.defaultWorldInfo c)) l = _
      rw [foldl_stepOption_some]

theorem PVA.keysNodup_aggregate (recs : List PyVal) :
    KeysNodup (PVA.aggregate_world_data recs) := by
  unfold PVA.aggregate_world_data
  rw [PVA.processRecord_eq_gen]
  exact keysNodup_foldl_genProcess _ _ recs [] (by simp [KeysNodup])

theorem PVA.mem_aggregate_iff (recs : List PyVal) (wid : PyVal) (info : PVA.WorldInfo) :
    (wid, info) ∈ PVA.aggregate_world_data recs ↔
      (recsFor wid recs ≠ [] ∧ info = PVA.accumulatorFor wid recs) := by
  constructor
  · intro hmem
    have hlook := assocLookup_eq_some_of_mem _ wid info (PVA.keysNodup_aggregate recs) hmem
    rw [PVA.assocLookup_aggregate] at hlook
    by_cases hl : recsFor wid recs = []
    · rw [if_pos hl] at hlook
      exact absurd hlook (by simp)
    · rw [if_neg hl] at hlook
      exact ⟨hl, (Option.some.inj hlook).symm⟩
  · rintro ⟨hl, rfl⟩
    apply mem_of_assocLookup
    rw [PVA.assocLookup_aggregate, if_neg hl]

theorem PVA.foldl_occurrences (l : List PyVal) (i : PVA.WorldInfo) :
    (l.foldl PVA.stepRecord i).occurrences = i.occurrences + l.length := by
  induction l generalizing i with
  | nil => rfl
  | cons r rest ih =>
      rw [List.foldl_cons, ih]
      show (PVA.stepRecord i r).occurrences + rest.length = _
      simp [PVA.stepRecord, List.length_cons]
      omega

theorem PVA.accumulatorFor_occurrences (wid : PyVal) (recs : List PyVal) :
    (PVA.accumulatorFor wid recs).occurrences = (recsFor wid recs).length := by
  unfold PVA.accumulatorFor
  rw [PVA.foldl_occurrences]
  simp [PVA.defaultWorldInfo]

/-! ## Stable descending sort lemmas -/

theorem mem_insertDesc {α : Type} (key : α → ℚ) (x : α) (l : List α) (a : α) :
    a ∈ insertDesc key x l ↔ a = x ∨ a ∈ l := by
  induction l with
  | nil => simp [insertDesc]
  | cons y ys ih =>
      by_cases h : key y > key x
      · simp only [insertDesc, if_pos h, List.mem_cons, ih]
        tauto
      · simp only [insertDesc, if_neg h, List.mem_cons]

theorem mem_sortByDesc {α : Type} (key : α → ℚ) (l : List α) (a : α) :
    a ∈ sortByDesc key l ↔ a ∈ l := by
  induction l with
  | nil => simp [sortByDesc]
  | cons x xs ih =>
      simp only [sortByDesc, mem_insertDesc, ih, List.mem_cons]

theorem sortedDescBy_insertDesc {α : Type} (key : α → ℚ) (x : α) (l : List α)
    (hl : SortedDescBy key l) : SortedDescBy key (insertDesc key x l) := by
  induction l with
  | nil =>
      simp [insertDesc, SortedDescBy]
  | cons y ys ih =>
      rw [SortedDescBy, List.pairwise_cons] at hl
      by_cases h : key y > key x
      · rw [insertDesc, if_pos h, SortedDescBy, List.pairwise_cons]
        refine ⟨?_, ih hl.2⟩
        intro a ha
        rcases (mem_insertDesc key x ys a).1 ha with rfl | ha
        · exact le_of_lt h
        · exact hl.1 a ha
      · rw [insertDesc, if_neg h, SortedDescBy, List.pairwise_cons]
        refine ⟨?_, ?_⟩
        · intro a ha
          rcases List.mem_cons.1 ha with rfl | ha
          · exact le_of_not_lt h
          · exact le_trans (hl.1 a ha) (le_of_not_lt h)
        · rw [List.pairwise_cons]
          exact ⟨hl.1, hl.2⟩

theorem sortedDescBy_sortByDesc {α : Type} (key : α → ℚ) (l : List α) :
    SortedDescBy key (sortByDesc key l) := by
  induction l with
  | nil => simp [sortByDesc, SortedDescBy]
  | cons x xs ih => exact sortedDescBy_insertDesc key x _ ih

theorem insertDesc_filter_key {α : Type} (key : α → ℚ) (x : α) (l : List α) (v : ℚ) :
    (insertDesc key x l).filter (fun a => key a = v) =
      if key x = v then x :: l.filter (fun a => key a = v)
      else l.filter (fun a => key a = v) := by
  induction l with
  | nil =>
      by_cases hx : key x = v
      · simp [insertDesc, List.filter, hx]
      · simp [insertDesc, List.filter, hx]
  | cons y ys ih =>
      by_cases h : key y > key x
      · by_cases hy : key y = v
        · have hx : ¬ key x = v := by
            intro hx
            rw [hx] at h
            rw [hy] at h
            exact lt_irrefl v h
          rw [insertDesc, if_pos h]
          simp only [List.filter_cons, if_pos (by simpa using hy), ih, if_neg hx,
            if_pos (show decide (key y = v) = true by simpa using hy)]
        · rw [insertDesc, if_pos h]
          simp only [List.filter_cons,
            if_neg (show ¬ decide (key y = v) = true by simpa using hy), ih]
      · rw [insertDesc, if_neg h]
        by_cases hx : key x = v
        · simp only [List.filter_cons, if_pos (show decide (key x = v) = true by simpa using hx),
            if_pos hx]
        · simp only [List.filter_cons,
            if_neg (show ¬ decide (key x = v) = true by simpa using hx), if_neg hx]

theorem sortByDesc_filter_key {α : Type} (key : α → ℚ) (l : List α) (v : ℚ) :
    (sortByDesc key l).filter (fun a => key a = v) = l.filter (fun a => key a = v) := by
  induction l with
  | nil => rfl
  | cons x xs ih =>
      rw [sortByDesc, insertDesc_filter_key]
      by_cases hx : key x = v
      · rw [if_pos hx, ih, List.filter_cons,
          if_pos (show decide (key x = v) = true by simpa using hx)]
      · rw [if_neg hx, ih, List.filter_cons,
          if_neg (show ¬ decide (key x = v) = true by simpa using hx)]

theorem sublist_insertDesc_self {α : Type} (key : α → ℚ) (x : α) (l : List α) :
    List.Sublist l (insertDesc key x l) := by
  induction l with
  | nil => exact List.nil_sublist _
  | cons y ys ih =>
      by_cases h : key y > key x
      · rw [insertDesc, if_pos h]
        exact ih.cons₂ y
      · rw [insertDesc, if_neg h]
        exact (List.Sublist.refl _).cons x

theorem insertDesc_sublist_of_sublist {α : Type} (key : α → ℚ) (x : α)
    {s₁ s₂ : List α} (hs : List.Sublist s₁ s₂) (hsort : SortedDescBy key s₂) :
    List.Sublist (insertDesc key x s₁) (insertDesc key x s₂) := by
  induction hs with
  | slnil => exact List.Sublist.refl _
  | @cons s₁ s₂ y hs ih =>
      rw [SortedDescBy, List.pairwise_cons] at hsort
      by_cases h : key y > key x
      · rw [insertDesc, if_pos h]
        exact (ih hsort.2).cons y
      · rw [insertDesc, if_neg h]
        cases s₁ with
        | nil =>
            exact (List.nil_sublist _).cons₂ x
        | cons z zs =>
            have hz : ¬ key z > key x := by
              have hzmem : z ∈ s₂ := hs.subset (List.mem_cons_self z zs)
              have : key z ≤ key y := hsort.1 z hzmem
              exact not_lt_of_le (le_trans this (le_of_not_lt h))
            rw [insertDesc, if_neg hz]
            exact (hs.cons y).cons₂ x
  | @cons₂ s₁ s₂ y hs ih =>
      rw [SortedDescBy, List.pairwise_cons] at hsort
      by_cases h : key y > key x
      · rw [insertDesc, if_pos h, insertDesc, if_pos h]
        exact (ih hsort.2).cons₂ y
      · rw [insertDesc, if_neg h, insertDesc, if_neg h]
        exact (hs.cons₂ y).cons₂ x

theorem sortByDesc_sublist {α : Type} (key : α → ℚ) {l₁ l₂ : List α}
    (h : List.Sublist l₁ l₂) : List.Sublist (sortByDesc key l₁) (sortByDesc key l₂) := by
  induction h with
  | slnil => exact List.Sublist.refl _
  | @cons l₁ l₂ y h ih =>
      rw [sortByDesc]
      exact ih.trans (sublist_insertDesc_self key y _)
  | @cons₂ l₁ l₂ y h ih =>
      rw [sortByDesc, sortByDesc]
      exact insertDesc_sublist_of_sublist key y ih (sortedDescBy_sortByDesc key l₂)

theorem map_insertDesc {α β : Type} (key : α → ℚ) (key2 : β → ℚ) (f : α → β)
    (hkey : ∀ a, key2 (f a) = key a) (x : α) (l : List α) :
    (insertDesc key x l).map f = insertDesc key2 (f x) (l.map f) := by
  induction l with
  | nil => rfl
  | cons y ys ih =>
      by_cases h : key y > key x
      · rw [insertDesc, if_pos h, List.map_cons, ih, List.map_cons, insertDesc,
          if_pos (by rw [hkey, hkey]; exact h)]
      · rw [insertDesc, if_neg h]
        simp only [List.map_cons]
        rw [insertDesc, if_neg (by rw [hkey, hkey]; exact h)]

theorem map_sortByDesc {α β : Type} (key : α → ℚ) (key2 : β → ℚ) (f : α → β)
    (hkey : ∀ a, key2 (f a) = key a) (l : List α) :
    (sortByDesc key l).map f = sortByDesc key2 (l.map f) := by
  induction l with
  | nil => rfl
  | cons x xs ih =>
      rw [sortByDesc, map_insertDesc key key2 f hkey, ih, List.map_cons, sortByDesc]

/-! ## Sticky-field lemmas -/

theorem stick_cons {τ : Type} (isSet : τ → Bool) (a c : τ) (cs : List τ) :
    stick isSet a (c :: cs) = stick isSet (if isSet a then a else c) cs := rfl

theorem stick_of_isSet {τ : Type} (isSet : τ → Bool) (a : τ) (cs : List τ)
    (h : isSet a = true) : stick isSet a cs = a := by
  induction cs with
  | nil => rfl
  | cons c cs ih => rw [stick_cons, if_pos h, ih]

theorem stick_eq_firstD {τ : Type} (isSet : τ → Bool) (d : τ) (cs : List τ)
    (hd : isSet d = false) (hcs : ∀ c ∈ cs, isSet c = false → c = d) :
    stick isSet d cs = firstD isSet d cs := by
  induction cs with
  | nil => rfl
  | cons c cs ih =>
      rw [stick_cons, if_neg (by simp [hd])]
      by_cases hc : isSet c = true
      · rw [stick_of_isSet isSet c cs hc, firstD, if_pos hc]
      · have hcd : c = d := hcs c (List.mem_cons_self c cs) (by simpa using hc)
        rw [firstD, if_neg hc, hcd]
        exact ih fun c' hc' => hcs c' (List.mem_cons_of_mem c hc')

theorem stickNA_cons (a c : String) (cs : List String) :
    stickNA a (c :: cs) =
      stickNA (if (a == "" || a == "NA") && c != "NA" then c else a) cs := rfl

theorem stickNA_of_set (a : String) (cs : List String) (h1 : a ≠ "") (h2 : a ≠ "NA") :
    stickNA a cs = a := by
  induction cs with
  | nil => rfl
  | cons c cs ih =>
      rw [stickNA_cons, if_neg (by simp [h1, h2]), ih]

theorem stickNA_eq_firstD (cs : List String) (hcs : ∀ c ∈ cs, c ≠ "") :
    stickNA "" cs = firstD (fun c => c != "NA") "" cs := by
  induction cs with
  | nil => rfl
  | cons c cs ih =>
      by_cases hc : c = "NA"
      · rw [stickNA_cons, if_neg (by simp [hc]), firstD, if_neg (by simp [hc])]
        exact ih fun c' hc' => hcs c' (List.mem_cons_of_mem c hc')
      · rw [stickNA_cons, if_pos (by simp [hc]), firstD, if_pos (by simp [hc])]
        exact stickNA_of_set c cs (hcs c (List.mem_cons_self c cs)) hc

theorem stickNA_all_NA (cs : List String) (hcs : ∀ c ∈ cs, c = "NA") :
    stickNA "" cs = "" := by
  induction cs with
  | nil => rfl
  | cons c cs ih =>
      have hc : c = "NA" := hcs c (List.mem_cons_self c cs)
      rw [stickNA_cons, if_neg (by simp [hc])]
      exact ih fun c' hc' => hcs c' (List.mem_cons_of_mem c hc')

theorem firstD_of_none {τ : Type} (p : τ → Bool) (d : τ) (cs : List τ)
    (h : ∀ c ∈ cs, p c = false) : firstD p d cs = d := by
  induction cs with
  | nil => rfl
  | cons c cs ih =>
      rw [firstD, if_neg (by simp [h c (List.mem_cons_self c cs)])]
      exact ih fun c' hc' => h c' (List.mem_cons_of_mem c hc')

/-! ## Per-field fold characterisations of the current variant -/

theorem PVA.foldl_name (l : List PyVal) (i : PVA.WorldInfo) :
    (l.foldl PVA.stepRecord i).name = stick PyVal.toBool i.name (l.map nameContrib) := by
  induction l generalizing i with
  | nil => rfl
  | cons r rest ih =>
      rw [List.foldl_cons, ih, List.map_cons, stick_cons]
      rfl

theorem PVA.foldl_image_url (l : List PyVal) (i : PVA.WorldInfo) :
    (l.foldl PVA.stepRecord i).image_url = stick PyVal.toBool i.image_url (l.map imageContrib) := by
  induction l generalizing i with
  | nil => rfl
  | cons r rest ih =>
      rw [List.foldl_cons, ih, List.map_cons, stick_cons]
      rfl

theorem PVA.foldl_author_id (l : List PyVal) (i : PVA.WorldInfo) :
    (l.foldl PVA.stepRecord i).author_id = stick PyVal.toBool i.author_id (l.map authorIdContrib) := by
  induction l generalizing i with
  | nil => rfl
  | cons r rest ih =>
      rw [List.foldl_cons, ih, List.map_cons, stick_cons]
      rfl

theorem PVA.foldl_author_name (l : List PyVal) (i : PVA.WorldInfo) :
    (l.foldl PVA.stepRecord i).author_name =
      stick PyVal.toBool i.author_name (l.map authorNameContrib) := by
  induction l generalizing i with
  | nil => rfl
  | cons r rest ih =>
      rw [List.foldl_cons, ih, List.map_cons, stick_cons]
      rfl

theorem PVA.foldl_heat (l : List PyVal) (i : PVA.WorldInfo) :
    (l.foldl PVA.stepRecord i).heat = stick (fun q => q != 0) i.heat (l.map heatContrib) := by
  induction l generalizing i with
  | nil => rfl
  | cons r rest ih =>
      rw [List.foldl_cons, ih, List.map_cons, stick_cons]
      by_cases h : i.heat = 0
      · rw [if_neg (by simp [h]), show (PVA.stepRecord i r).heat = heatContrib r by
          simp [PVA.stepRecord, h]]
      · rw [if_pos (by simp [h]), show (PVA.stepRecord i r).heat = i.heat by
          simp [PVA.stepRecord, h]]

theorem PVA.foldl_popularity (l : List PyVal) (i : PVA.WorldInfo) :
    (l.foldl PVA.stepRecord i).popularity =
      stick (fun q => q != 0) i.popularity (l.map popularityContrib) := by
  induction l generalizing i with
  | nil => rfl
  | cons r rest ih =>
      rw [List.foldl_cons, ih, List.map_cons, stick_cons]
      by_cases h : i.popularity = 0
      · rw [if_neg (by simp [h]), show (PVA.stepRecord i r).popularity = popularityContrib r by
          simp [PVA.stepRecord, h]]
      · rw [if_pos (by simp [h]), show (PVA.stepRecord i r).popularity = i.popularity by
          simp [PVA.stepRecord, h]]

theorem PVA.foldl_bioLinks (l : List PyVal) (i : PVA.WorldInfo) :
    (l.foldl PVA.stepRecord i).bioLinks = stickNA i.bioLinks (l.map PVA.bioLinksContrib) := by
  induction l generalizing i with
  | nil => rfl
  | cons r rest ih =>
      rw [List.foldl_cons, ih, List.map_cons, stickNA_cons]
      by_cases h1 : (i.bioLinks == "" || i.bioLinks == "NA") = true
      · by_cases h2 : (PVA.bioLinksContrib r != "NA") = true
        · rw [if_pos (by simp_all), show (PVA.stepRecord i r).bioLinks = PVA.bioLinksContrib r by
            simp_all [PVA.stepRecord]]
        · rw [if_neg (by simp_all), show (PVA.stepRecord i r).bioLinks = i.bioLinks by
            simp_all [PVA.stepRecord]]
      · rw [if_neg (by simp_all), show (PVA.stepRecord i r).bioLinks = i.bioLinks by
          simp_all [PVA.stepRecord]]

theorem PVA.foldl_bio (l : List PyVal) (i : PVA.WorldInfo) :
    (l.foldl PVA.stepRecord i).bio = stickNA i.bio (l.map PVA.bioContrib) := by
  induction l generalizing i with
  | nil => rfl
  | cons r rest ih =>
      rw [List.foldl_cons, ih, List.map_cons, stickNA_cons]
      by_cases h1 : (i.bio == "" || i.bio == "NA") = true
      · by_cases h2 : (PVA.bioContrib r != "NA") = true
        · rw [if_pos (by simp_all), show (PVA.stepRecord i r).bio = PVA.bioContrib r by
            simp_all [PVA.stepRecord]]
        · rw [if_neg (by simp_all), show (PVA.stepRecord i r).bio = i.bio by
            simp_all [PVA.stepRecord]]
      · rw [if_neg (by simp_all), show (PVA.stepRecord i r).bio = i.bio by
          simp_all [PVA.stepRecord]]

/-! ## Rounding lemmas -/

theorem ratFloor_eq (q : ℚ) : q.floor = ⌊q⌋ := by
  rw [Rat.floor_def', Rat.floor_def]

theorem roundHalfEven_nonneg (q : ℚ) (h : 0 ≤ q) : 0 ≤ roundHalfEven q := by
  have hf : 0 ≤ q.floor := by
    rw [ratFloor_eq]
    exact Int.floor_nonneg.2 h
  unfold roundHalfEven
  split_ifs <;> omega

theorem pyRound2_nonneg (q : ℚ) (h : 0 ≤ q) : 0 ≤ pyRound2 q := by
  have h1 : 0 ≤ roundHalfEven (q * 100) := roundHalfEven_nonneg _ (by positivity)
  unfold pyRound2
  have h2 : (0 : ℚ) ≤ (roundHalfEven (q * 100) : ℚ) := by exact_mod_cast h1
  positivity

theorem roundHalfEven_intCast (n : ℤ) : roundHalfEven (n : ℚ) = n := by
  unfold roundHalfEven
  have hfl : ((n : ℚ)).floor = n := by
    rw [ratFloor_eq]
    exact Int.floor_intCast n
  rw [hfl]
  simp

theorem pyRound2_intCast (n : ℤ) : pyRound2 (n : ℚ) = n := by
  unfold pyRound2
  have hq : ((n : ℚ) * 100) = ((n * 100 : ℤ) : ℚ) := by push_cast; ring
  rw [hq, roundHalfEven_intCast]
  push_cast
  field_simp

/-! ## Permutation and membership lemmas for filtering and sorting -/

theorem perm_insertDesc {α : Type} (key : α → ℚ) (x : α) (l : List α) :
    List.Perm (insertDesc key x l) (x :: l) := by
  induction l with
  | nil => exact List.Perm.refl _
  | cons y ys ih =>
      by_cases h : key y > key x
      · rw [insertDesc, if_pos h]
        exact (ih.cons y).trans (List.Perm.swap x y ys)
      · rw [insertDesc, if_neg h]

theorem perm_sortByDesc {α : Type} (key : α → ℚ) (l : List α) :
    List.Perm (sortByDesc key l) l := by
  induction l with
  | nil => exact List.Perm.refl _
  | cons x xs ih =>
      rw [sortByDesc]
      exact (perm_insertDesc key x _).trans (ih.cons x)

theorem PVA.mem_survivors_iff (wd : List (PyVal × PVA.WorldInfo)) (cfg : PVA.Config)
    (wid : PyVal) (s : PVA.WorldSummary) :
    (wid, s) ∈ PVA.survivors wd cfg ↔
      ∃ i : PVA.WorldInfo, (wid, i) ∈ wd
        ∧ cfg.MIN_OCCURRENCES ≤ (i.occurrences : ℤ)
        ∧ cfg.MIN_MARKETING_SPEND ≤ (PVA.mkSummary i cfg).max_marketing_spend
        ∧ s = PVA.mkSummary i cfg := by
  unfold PVA.survivors
  rw [List.mem_filterMap]
  constructor
  · rintro ⟨p, hp, heq⟩
    by_cases h1 : cfg.MIN_OCCURRENCES ≤ (p.2.occurrences : ℤ)
    · rw [if_pos h1] at heq
      by_cases h2 : cfg.MIN_MARKETING_SPEND ≤ (PVA.mkSummary p.2 cfg).max_marketing_spend
      · rw [if_pos h2] at heq
        have heq2 : (p.1, PVA.mkSummary p.2 cfg) = (wid, s) := Option.some.inj heq
        have hfst : p.1 = wid := congrArg Prod.fst heq2
        have hsnd : PVA.mkSummary p.2 cfg = s := congrArg Prod.snd heq2
        subst hfst
        refine ⟨p.2, ?_, h1, h2, hsnd.symm⟩
        simpa using hp
      · rw [if_neg h2] at heq
        exact absurd heq (by simp)
    · rw [if_neg h1] at heq
      exact absurd heq (by simp)
  · rintro ⟨i, hmem, h1, h2, rfl⟩
    exact ⟨(wid, i), hmem, by rw [if_pos h1, if_pos h2]⟩

theorem PVA.mem_calculate_iff (wd : List (PyVal × PVA.WorldInfo)) (cfg : PVA.Config)
    (wid : PyVal) (s : PVA.WorldSummary) :
    (wid, s) ∈ PVA.calculate_averages_and_sort wd cfg ↔
      (wid, s) ∈ PVA.survivors wd cfg := by
  unfold PVA.calculate_averages_and_sort
  exact mem_sortByDesc _ _ _

theorem PVA.keys_survivors_sublist (wd : List (PyVal × PVA.WorldInfo)) (cfg : PVA.Config) :
    List.Sublist ((PVA.survivors wd cfg).map Prod.fst) (wd.map Prod.fst) := by
  induction wd with
  | nil => exact List.Sublist.refl _
  | cons p rest ih =>
      unfold PVA.survivors
      rw [List.filterMap_cons]
      by_cases h1 : cfg.MIN_OCCURRENCES ≤ (p.2.occurrences : ℤ)
      · rw [if_pos h1]
        by_cases h2 : cfg.MIN_MARKETING_SPEND ≤ (PVA.mkSummary p.2 cfg).max_marketing_spend
        · rw [if_pos h2]
          exact ih.cons₂ p.1
        · rw [if_neg h2]
          exact ih.cons p.1
      · rw [if_neg h1]
        exact ih.cons p.1

theorem PVA.keysNodup_calculate (wd : List (PyVal × PVA.WorldInfo)) (cfg : PVA.Config)
    (h : KeysNodup wd) : KeysNodup (PVA.calculate_averages_and_sort wd cfg) := by
  have hsurv : KeysNodup (PVA.survivors wd cfg) :=
    (PVA.keys_survivors_sublist wd cfg).nodup h
  unfold PVA.calculate_averages_and_sort
  unfold KeysNodup
  exact ((perm_sortByDesc _ _).map Prod.fst).nodup_iff.2 hsurv

theorem PVA.keysNodup_pipeline (recs : List PyVal) (cfg : PVA.Config) :
    KeysNodup (PVA.pipeline recs cfg) :=
  PVA.keysNodup_calculate _ cfg (PVA.keysNodup_aggregate recs)

theorem PVA.mem_pipeline_iff (recs : List PyVal) (cfg : PVA.Config)
    (wid : PyVal) (s : PVA.WorldSummary) :
    (wid, s) ∈ PVA.pipeline recs cfg ↔
      (recsFor wid recs ≠ []
        ∧ cfg.MIN_OCCURRENCES ≤ ((PVA.accumulatorFor wid recs).occurrences : ℤ)
        ∧ cfg.MIN_MARKETING_SPEND ≤
            (PVA.mkSummary (PVA.accumulatorFor wid recs) cfg).max_marketing_spend
        ∧ s = PVA.mkSummary (PVA.accumulatorFor wid recs) cfg) := by
  unfold PVA.pipeline
  rw [PVA.mem_calculate_iff, PVA.mem_survivors_iff]
  constructor
  · rintro ⟨i, hmem, h1, h2, rfl⟩
    obtain ⟨hne, rfl⟩ := (PVA.mem_aggregate_iff recs wid i).1 hmem
    exact ⟨hne, h1, h2, rfl⟩
  · rintro ⟨hne, h1, h2, rfl⟩
    exact ⟨PVA.accumulatorFor wid recs, (PVA.mem_aggregate_iff recs wid _).2 ⟨hne, rfl⟩, h1, h2, rfl⟩

/-! ## Claim theorems -/

/-- **C10** (confirmed): a raw record that is not a mapping never raises
during aggregation — in the embedding every `safe_get` on it returns the
default `""`, so no identifier resolves, the record takes the
missing-identifier skip path, the fold state is unchanged, and the record
contributes to no accumulator. -/
theorem c10_non_mapping_records_are_skipped (r : PyVal) (hr : r.isDict = false)
    (st : List (PyVal × PVA.WorldInfo)) :
    (∀ key : String, safe_get r key = .str "")
    ∧ resolveWorldId r = none
    ∧ PVA.processRecord st r = st := by
  have hget : ∀ key : String, safe_get r key = .str "" := by
    intro key
    cases r <;> simp_all [safe_get, PyVal.isDict]
  have hres : resolveWorldId r = none := by
    simp [resolveWorldId, hget, pyOr, PyVal.toBool]
  exact ⟨hget, hres, by simp [PVA.processRecord, hres]⟩

/-- Witness for C10 at the concrete non-mapping record `"oops"`. -/
theorem c10_witness :
    PVA.processRecord [] (.str "oops") = []
    ∧ safe_get (.str "oops") "id" = .str "" :=
  ⟨(c10_non_mapping_records_are_skipped (.str "oops") rfl []).2.2,
    (c10_non_mapping_records_are_skipped (.str "oops") rfl []).1 "id"⟩

/-- **C7** (counterexample): the claim's "first non-empty string wins" fails
on a record whose `id` is the number `7` with `worldId = "abc"`.  The claim
predicts the identifier `"abc"`; the code accepts the truthy number and keys
the accumulator by `7`, leaving no accumulator under `"abc"`. -/
theorem c7_counterexample :
    assocLookup (PVA.aggregate_world_data [numIdRec]) (.str "abc") = none
    ∧ assocLookup (PVA.aggregate_world_data [numIdRec]) (.num 7) =
        some (PVA.stepRecord PVA.defaultWorldInfo numIdRec) := by
  constructor
  · with_unfolding_all rfl
  · with_unfolding_all rfl

/-- **C7** (amended): identifier resolution tries `id`, `worldId`,
`world_id` in that order and the first *truthy* value wins (for string
values this is the first non-empty string — a resolved string is never
empty); a record in which no field is truthy resolves to nothing, leaves
every accumulator untouched wherever it sits in the batch, and the rest of
the batch is still processed. -/
theorem c7_identifier_resolution (r : PyVal) (pre post : List PyVal) :
    resolveWorldId r =
      [safe_get r "id", safe_get r "worldId", safe_get r "world_id"].find? PyVal.toBool
    ∧ (∀ s : String, resolveWorldId r = some (.str s) → s ≠ "")
    ∧ (resolveWorldId r = none →
        PVA.aggregate_world_data (pre ++ r :: post) = PVA.aggregate_world_data (pre ++ post)) := by
  have hfind : resolveWorldId r =
      [safe_get r "id", safe_get r "worldId", safe_get r "world_id"].find? PyVal.toBool := by
    by_cases h1 : (safe_get r "id").toBool
    · simp [resolveWorldId, pyOr, List.find?, h1]
    · by_cases h2 : (safe_get r "worldId").toBool
      · simp [resolveWorldId, pyOr, List.find?, h1, h2]
      · by_cases h3 : (safe_get r "world_id").toBool
        · simp [resolveWorldId, pyOr, List.find?, h1, h2, h3]
        · simp [resolveWorldId, pyOr, List.find?, h1, h2, h3]
  refine ⟨hfind, ?_, ?_⟩
  · intro s hs
    rw [hfind] at hs
    have := List.find?_some hs
    simpa [PyVal.toBool] using this
  · intro h
    unfold PVA.aggregate_world_data
    rw [List.foldl_append, List.foldl_cons, List.foldl_append]
    congr 1
    simp [PVA.processRecord, h]

/-- Witness for C7's amended theorem: the record lacking every identifier
field is skipped and the rest of the batch still aggregates. -/
theorem c7_witness :
    resolveWorldId noIdRec = none
    ∧ PVA.aggregate_world_data [occ100Rec, noIdRec] = PVA.aggregate_world_data [occ100Rec] := by
  have h := c7_identifier_resolution noIdRec [occ100Rec] []
  have hres : resolveWorldId noIdRec = none := by
    rw [h.1]
    with_unfolding_all rfl
  exact ⟨hres, h.2.2 hres⟩

/-- **C5** (counterexample): `occupant_sum ≥ 0` fails on a reachable state.
A single record with `occupants = -5` coerces to `-5` (no clamping in the
source) and the world's accumulator holds a negative sum. -/
theorem c5_counterexample :
    assocLookup (PVA.aggregate_world_data [negOccRec]) (.str "w") ≠ none
    ∧ ((assocLookup (PVA.aggregate_world_data [negOccRec]) (.str "w")).getD
        PVA.defaultWorldInfo).occupants_sum < 0 := by
  constructor
  · with_unfolding_all decide
  · with_unfolding_all decide

/-- **C5** (amended): for every accumulator reachable by folding any record
list, `occurrence_count ≥ 1` and `min_occupants ≤ max_occupants` hold
unconditionally, and `occupant_sum ≥ 0` holds provided every record's
coerced occupant count is non-negative (the source never clamps a negative
coercion result). -/
theorem c5_accumulator_invariants (recs : List PyVal) (wid : PyVal) (info : PVA.WorldInfo)
    (hmem : (wid, info) ∈ PVA.aggregate_world_data recs) :
    1 ≤ info.occurrences
    ∧ (∃ m : ℤ, info.min_occupants = some m ∧ m ≤ info.max_occupants)
    ∧ ((∀ r ∈ recs, 0 ≤ occupantsOf r) → 0 ≤ info.occupants_sum) := by
  have hbase : ∀ p ∈ PVA.aggregate_world_data recs,
      (1 ≤ p.2.occurrences
        ∧ ∃ m : ℤ, p.2.min_occupants = some m ∧ m ≤ p.2.max_occupants) := by
    unfold PVA.aggregate_world_data
    rw [PVA.processRecord_eq_gen]
    refine foldl_genProcess_invariant PVA.stepRecord PVA.defaultWorldInfo
      (fun i => 1 ≤ i.occurrences ∧ ∃ m : ℤ, i.min_occupants = some m ∧ m ≤ i.max_occupants)
      recs [] ?_ ?_
    · intro i r _ hi
      constructor
      · show 1 ≤ (PVA.stepRecord i r).occurrences
        simp [PVA.stepRecord]
      · rcases hi with hP | rfl
        · obtain ⟨m, hm, hle⟩ := hP.2
          refine ⟨min m (occupantsOf r), ?_, ?_⟩
          · simp [PVA.stepRecord, hm]
          · show min m (occupantsOf r) ≤ (PVA.stepRecord i r).max_occupants
            simp only [PVA.stepRecord]
            exact le_trans (min_le_left m _) (le_trans hle (le_max_left _ _))
        · refine ⟨occupantsOf r, ?_, ?_⟩
          · simp [PVA.stepRecord, PVA.defaultWorldInfo]
          · show occupantsOf r ≤ (PVA.stepRecord PVA.defaultWorldInfo r).max_occupants
            simp only [PVA.stepRecord]
            exact le_max_right _ _
    · intro p hp
      simp at hp
  refine ⟨(hbase (wid, info) hmem).1, (hbase (wid, info) hmem).2, ?_⟩
  intro hocc
  have hsum : ∀ p ∈ PVA.aggregate_world_data recs, 0 ≤ p.2.occupants_sum := by
    unfold PVA.aggregate_world_data
    rw [PVA.processRecord_eq_gen]
    refine foldl_genProcess_invariant PVA.stepRecord PVA.defaultWorldInfo
      (fun i => 0 ≤ i.occupants_sum) recs [] ?_ ?_
    · intro i r hr hi
      show 0 ≤ (PVA.stepRecord i r).occupants_sum
      simp only [PVA.stepRecord]
      rcases hi with hP | rfl
      · exact add_nonneg hP (hocc r hr)
      · simpa [PVA.defaultWorldInfo] using hocc r hr
    · intro p hp
      simp at hp
  exact hsum (wid, info) hmem

/-- Witness for C5's amended theorem on a single well-formed record. -/
theorem c5_witness :
    1 ≤ (PVA.stepRecord PVA.defaultWorldInfo occ100Rec).occurrences
    ∧ 0 ≤ (PVA.stepRecord PVA.defaultWorldInfo occ100Rec).occupants_sum := by
  have h := c5_accumulator_invariants [occ100Rec] (.str "w")
    (PVA.stepRecord PVA.defaultWorldInfo occ100Rec) (by with_unfolding_all decide)
  exact ⟨h.1, h.2.2 (by with_unfolding_all decide)⟩

/-- **C6** (counterexample): for a world observed in exactly one record with
coerced occupant count `-5`, the accumulator's `max_occupants` is `0` (the
`defaultdict` starts `max` at `0`), not the record's coerced count. -/
theorem c6_counterexample :
    occupantsOf negOccRec = -5
    ∧ ((assocLookup (PVA.aggregate_world_data [negOccRec]) (.str "w")).getD
        PVA.defaultWorldInfo).max_occupants = 0
    ∧ ((assocLookup (PVA.aggregate_world_data [negOccRec]) (.str "w")).getD
        PVA.defaultWorldInfo).max_occupants ≠ occupantsOf negOccRec := by
  refine ⟨?_, ?_, ?_⟩
  · with_unfolding_all rfl
  · with_unfolding_all rfl
  · with_unfolding_all decide

/-- **C6** (amended): for a world observed in exactly one record whose
coerced occupant count is non-negative, under a policy that lets it survive
(`min_occurrences = 1`, `min_marketing_spend = 0`), the summary has
`occurrence_count = 1` and average, max and min all equal to that record's
coerced occupant count. -/
theorem c6_single_observation (recs : List PyVal) (wid r : PyVal)
    (hone : recsFor wid recs = [r]) (hnn : 0 ≤ occupantsOf r) :
    assocLookup (PVA.pipeline recs permissiveConfig) wid =
      some (PVA.mkSummary (PVA.accumulatorFor wid recs) permissiveConfig)
    ∧ (PVA.mkSummary (PVA.accumulatorFor wid recs) permissiveConfig).occurrences = 1
    ∧ (PVA.mkSummary (PVA.accumulatorFor wid recs) permissiveConfig).average_occupants
        = (occupantsOf r : ℚ)
    ∧ (PVA.mkSummary (PVA.accumulatorFor wid recs) permissiveConfig).max_occupants
        = occupantsOf r
    ∧ (PVA.mkSummary (PVA.accumulatorFor wid recs) permissiveConfig).min_occupants
        = occupantsOf r := by
  have hacc : PVA.accumulatorFor wid recs = PVA.stepRecord PVA.defaultWorldInfo r := by
    unfold PVA.accumulatorFor
    rw [hone]
    rfl
  have hocc1 : (PVA.accumulatorFor wid recs).occurrences = 1 := by
    rw [hacc]
    simp [PVA.stepRecord, PVA.defaultWorldInfo]
  have hsum : (PVA.accumulatorFor wid recs).occupants_sum = occupantsOf r := by
    rw [hacc]
    simp [PVA.stepRecord, PVA.defaultWorldInfo]
  have hmax : (PVA.accumulatorFor wid recs).max_occupants = occupantsOf r := by
    rw [hacc]
    show max PVA.defaultWorldInfo.max_occupants (occupantsOf r) = occupantsOf r
    simp only [PVA.defaultWorldInfo]
    exact max_eq_right hnn
  have hmin : (PVA.accumulatorFor wid recs).min_occupants = some (occupantsOf r) := by
    rw [hacc]
    simp [PVA.stepRecord, PVA.defaultWorldInfo]
  have havgraw : ((PVA.accumulatorFor wid recs).occupants_sum : ℚ)
      / ((PVA.accumulatorFor wid recs).occurrences : ℚ) = (occupantsOf r : ℚ) := by
    rw [hsum, hocc1]
    norm_num
  have havg : (PVA.mkSummary (PVA.accumulatorFor wid recs) permissiveConfig).average_occupants
      = (occupantsOf r : ℚ) := by
    show pyRound2 _ = _
    rw [havgraw, pyRound2_intCast]
  have hspend : (0 : ℚ) ≤
      (PVA.mkSummary (PVA.accumulatorFor wid recs) permissiveConfig).max_marketing_spend := by
    show (0 : ℚ) ≤ pyRound2 _
    apply pyRound2_nonneg
    rw [havgraw]
    have h0 : (0 : ℚ) ≤ (occupantsOf r : ℚ) := by exact_mod_cast hnn
    have hfac : (0 : ℚ) ≤ permissiveConfig.HEAT_POPULARITY_FACTOR := by
      norm_num [permissiveConfig]
    refine mul_nonneg (mul_nonneg (div_nonneg (mul_nonneg (mul_nonneg h0 hfac)
      (by norm_num)) (by norm_num)) (by norm_num)) (by norm_num)
  have hmem : (wid, PVA.mkSummary (PVA.accumulatorFor wid recs) permissiveConfig)
      ∈ PVA.pipeline recs permissiveConfig := by
    rw [PVA.mem_pipeline_iff]
    refine ⟨by rw [hone]; exact List.cons_ne_nil r [], ?_, ?_, rfl⟩
    · rw [hocc1]
      norm_num [permissiveConfig]
    · show permissiveConfig.MIN_MARKETING_SPEND ≤ _
      rw [show permissiveConfig.MIN_MARKETING_SPEND = 0 from rfl]
      exact hspend
  refine ⟨?_, ?_, havg, ?_, ?_⟩
  · exact assocLookup_eq_some_of_mem _ wid _ (PVA.keysNodup_pipeline recs permissiveConfig) hmem
  · show (PVA.accumulatorFor wid recs).occurrences = 1
    exact hocc1
  · show (PVA.accumulatorFor wid recs).max_occupants = occupantsOf r
    exact hmax
  · show ((PVA.accumulatorFor wid recs).min_occupants).getD 0 = occupantsOf r
    rw [hmin]
    rfl

/-- Witness for C6's amended theorem on the concrete single observation of
world `w` with 100 occupants. -/
theorem c6_witness :
    assocLookup (PVA.pipeline [occ100Rec] permissiveConfig) (.str "w") =
      some (PVA.mkSummary (PVA.accumulatorFor (.str "w") [occ100Rec]) permissiveConfig)
    ∧ (PVA.mkSummary (PVA.accumulatorFor (.str "w") [occ100Rec]) permissiveConfig).occurrences = 1
    ∧ (PVA.mkSummary (PVA.accumulatorFor (.str "w") [occ100Rec]) permissiveConfig).average_occupants
        = (occupantsOf occ100Rec : ℚ)
    ∧ (PVA.mkSummary (PVA.accumulatorFor (.str "w") [occ100Rec]) permissiveConfig).max_occupants
        = occupantsOf occ100Rec
    ∧ (PVA.mkSummary (PVA.accumulatorFor (.str "w") [occ100Rec]) permissiveConfig).min_occupants
        = occupantsOf occ100Rec :=
  c6_single_observation [occ100Rec] (.str "w") occ100Rec
    (by with_unfolding_all rfl) (by with_unfolding_all decide)

/-- **C2** (confirmed): with `min_occurrences = 7`, a world observed exactly
6 times is absent from the output regardless of occupant values; a world
observed exactly 7 times appears in the output iff its derived
`max_marketing_spend` passes the `min_marketing_spend` threshold. -/
theorem c2_occurrence_and_spend_filtering (recs : List PyVal) (cfg : PVA.Config)
    (wid : PyVal) (h7 : cfg.MIN_OCCURRENCES = 7) :
    ((recsFor wid recs).length = 6 → wid ∉ (PVA.pipeline recs cfg).map Prod.fst)
    ∧ ((recsFor wid recs).length = 7 →
        (wid ∈ (PVA.pipeline recs cfg).map Prod.fst ↔
          cfg.MIN_MARKETING_SPEND ≤
            (PVA.mkSummary (PVA.accumulatorFor wid recs) cfg).max_marketing_spend)) := by
  have hkey : ∀ s : PVA.WorldSummary, (wid, s) ∈ PVA.pipeline recs cfg →
      cfg.MIN_OCCURRENCES ≤ ((PVA.accumulatorFor wid recs).occurrences : ℤ)
        ∧ cfg.MIN_MARKETING_SPEND ≤
            (PVA.mkSummary (PVA.accumulatorFor wid recs) cfg).max_marketing_spend := by
    intro s hs
    obtain ⟨_, h1, h2, _⟩ := (PVA.mem_pipeline_iff recs cfg wid s).1 hs
    exact ⟨h1, h2⟩
  have hof : ∀ h : wid ∈ (PVA.pipeline recs cfg).map Prod.fst,
      ∃ s : PVA.WorldSummary, (wid, s) ∈ PVA.pipeline recs cfg := by
    intro h
    obtain ⟨p, hp, hfst⟩ := List.mem_map.1 h
    exact ⟨p.2, by rwa [show (wid, p.2) = p from by rw [← hfst]] ⟩
  constructor
  · intro h6 hmem
    obtain ⟨s, hs⟩ := hof hmem
    have h1 := (hkey s hs).1
    rw [PVA.accumulatorFor_occurrences, h6, h7] at h1
    norm_num at h1
  · intro hlen
    constructor
    · intro hmem
      obtain ⟨s, hs⟩ := hof hmem
      exact (hkey s hs).2
    · intro hspend
      have hne : recsFor wid recs ≠ [] := by
        intro hnil
        rw [hnil] at hlen
        simp at hlen
      have hmem : (wid, PVA.mkSummary (PVA.accumulatorFor wid recs) cfg)
          ∈ PVA.pipeline recs cfg := by
        rw [PVA.mem_pipeline_iff]
        refine ⟨hne, ?_, hspend, rfl⟩
        rw [PVA.accumulatorFor_occurrences, hlen, h7]
        norm_num
      exact List.mem_map.2 ⟨_, hmem, rfl⟩

set_option maxRecDepth 4000 in
/-- Witness for C2: world `a` observed 6 times is filtered out; world `b`
observed 7 times with average 100 has spend 42 ≥ 15 and appears. -/
theorem c2_witness :
    (PyVal.str "a") ∉ (PVA.pipeline sixSevenRecs PVA.defaultConfig).map Prod.fst
    ∧ (PyVal.str "b") ∈ (PVA.pipeline sixSevenRecs PVA.defaultConfig).map Prod.fst := by
  have ha := c2_occurrence_and_spend_filtering sixSevenRecs PVA.defaultConfig (.str "a") rfl
  have hb := c2_occurrence_and_spend_filtering sixSevenRecs PVA.defaultConfig (.str "b") rfl
  constructor
  · exact ha.1 (by with_unfolding_all rfl)
  · exact (hb.2 (by with_unfolding_all rfl)).2 (by with_unfolding_all decide)

/-- **C3** (counterexample): the claim says the marketing spend is derived
from the *already-rounded* estimated orders.  At `average_occupants = 1`,
`factor = 1` the code's estimated orders round to `0.0` yet the emitted
spend is `0.42` (computed from the unrounded `0.003`), while the claim's
formula `round(rounded_orders*400*0.35, 2)` gives `0.0`. -/
theorem c3_counterexample :
    PVA.calculate_business_metrics 1 1 = (0, 42 / 100)
    ∧ pyRound2 ((PVA.calculate_business_metrics 1 1).1 * 400 * 0.35) = 0
    ∧ (PVA.calculate_business_metrics 1 1).2 ≠
        pyRound2 ((PVA.calculate_business_metrics 1 1).1 * 400 * 0.35) := by
  refine ⟨?_, ?_, ?_⟩
  · with_unfolding_all decide
  · with_unfolding_all decide
  · with_unfolding_all decide

/-- **C3** (amended): for every surviving world, the metrics follow the
spec's formulas applied to the *unrounded* intermediate values:
`estimated_orders = round(raw_avg × factor × 30 / 10000, 2)` and
`max_marketing_spend = round(raw_avg × factor × 30 / 10000 × 400 × 0.35, 2)`
— the spend is derived from the unrounded estimated orders (and both use the
unrounded average), rounding happening only at the end.  The claim's
spot-check stands: `average_occupants = 100`, `factor = 1.0` gives
`estimated_orders = 0.3` and `max_marketing_spend = 42.0`. -/
theorem c3_business_metrics (recs : List PyVal) (cfg : PVA.Config) (wid : PyVal)
    (s : PVA.WorldSummary) (hmem : (wid, s) ∈ PVA.pipeline recs cfg) :
    s.estimated_orders =
      pyRound2 ((s.occupants_sum : ℚ) / (s.occurrences : ℚ) * cfg.HEAT_POPULARITY_FACTOR
        * 30 / 10000)
    ∧ s.max_marketing_spend =
      pyRound2 ((s.occupants_sum : ℚ) / (s.occurrences : ℚ) * cfg.HEAT_POPULARITY_FACTOR
        * 30 / 10000 * 400 * 0.35)
    ∧ PVA.calculate_business_metrics 100 1 = (3 / 10, 42) := by
  obtain ⟨_, _, _, rfl⟩ := (PVA.mem_pipeline_iff recs cfg wid s).1 hmem
  refine ⟨rfl, rfl, by with_unfolding_all decide⟩

set_option maxRecDepth 4000 in
/-- Witness for C3's amended theorem on the 7-observation world with
average 100 under the default policy. -/
theorem c3_witness :
    (PVA.mkSummary (PVA.accumulatorFor (.str "w") sevenRecs) PVA.defaultConfig).estimated_orders =
      pyRound2 (((PVA.mkSummary (PVA.accumulatorFor (.str "w") sevenRecs)
          PVA.defaultConfig).occupants_sum : ℚ)
        / ((PVA.mkSummary (PVA.accumulatorFor (.str "w") sevenRecs)
          PVA.defaultConfig).occurrences : ℚ)
        * PVA.defaultConfig.HEAT_POPULARITY_FACTOR * 30 / 10000)
    ∧ (PVA.mkSummary (PVA.accumulatorFor (.str "w") sevenRecs)
          PVA.defaultConfig).max_marketing_spend =
      pyRound2 (((PVA.mkSummary (PVA.accumulatorFor (.str "w") sevenRecs)
          PVA.defaultConfig).occupants_sum : ℚ)
        / ((PVA.mkSummary (PVA.accumulatorFor (.str "w") sevenRecs)
          PVA.defaultConfig).occurrences : ℚ)
        * PVA.defaultConfig.HEAT_POPULARITY_FACTOR * 30 / 10000 * 400 * 0.35)
    ∧ PVA.calculate_business_metrics 100 1 = (3 / 10, 42) :=
  c3_business_metrics sevenRecs PVA.defaultConfig (.str "w")
    (PVA.mkSummary (PVA.accumulatorFor (.str "w") sevenRecs) PVA.defaultConfig)
    (by with_unfolding_all decide)

/-- **C8** (confirmed): the emitted list is sorted by `average_occupants`
descending; elements with equal averages keep the surviving worlds'
insertion order (the sort is stable); the function is deterministic by
construction; and the spec's example — averages A:10, B:50, C:30 under a
policy where all three survive — emits `[B, C, A]`. -/
theorem c8_output_ordering (wd : List (PyVal × PVA.WorldInfo)) (cfg : PVA.Config) (v : ℚ) :
    SortedDescBy avgKey (PVA.calculate_averages_and_sort wd cfg)
    ∧ (PVA.calculate_averages_and_sort wd cfg).filter (fun p => avgKey p = v)
        = (PVA.survivors wd cfg).filter (fun p => avgKey p = v)
    ∧ (PVA.pipeline orderingRecs permissiveConfig).map Prod.fst
        = [.str "B", .str "C", .str "A"] := by
  refine ⟨?_, ?_, ?_⟩
  · exact sortedDescBy_sortByDesc avgKey (PVA.survivors wd cfg)
  · exact sortByDesc_filter_key avgKey (PVA.survivors wd cfg) v
  · with_unfolding_all rfl

/-- Helper for C1: a string-valued contribution that is falsy is exactly the
empty-string sentinel. -/
theorem str_contrib_eq_default (c : PyVal) (hstr : c.isStr = true) (hb : c.toBool = false) :
    c = .str "" := by
  cases c <;> simp_all [PyVal.isStr, PyVal.toBool]

/-- **C1** (confirmed): over observations — records whose sticky source
fields carry the types the spec's data model assigns them (the four
name/url/author fields resolve to strings; the formatted bio/social values
are never the empty string, as holds for absent, string-valued, or
non-degenerate list-valued input) — every sticky field of a world's
accumulator ends up holding the value supplied by the first observation
whose value is not the field's sentinel (`""` for name/image_url/author_id/
author_name, `"NA"` for the formatted bio_links/bio_description, `0` for
the coerced heat/popularity), and a stored non-sentinel value survives
every later fold step unchanged, whatever that step's record contains. -/
theorem c1_sticky_fields_first_wins (recs : List PyVal) (wid : PyVal) (info : PVA.WorldInfo)
    (hacc : assocLookup (PVA.aggregate_world_data recs) wid = some info)
    (hname : ∀ r ∈ recsFor wid recs, (nameContrib r).isStr = true)
    (himg : ∀ r ∈ recsFor wid recs, (imageContrib r).isStr = true)
    (haid : ∀ r ∈ recsFor wid recs, (authorIdContrib r).isStr = true)
    (hanm : ∀ r ∈ recsFor wid recs, (authorNameContrib r).isStr = true)
    (hbl : ∀ r ∈ recsFor wid recs, PVA.bioLinksContrib r ≠ "")
    (hbio : ∀ r ∈ recsFor wid recs, PVA.bioContrib r ≠ "") :
    (info.name = firstD PyVal.toBool (.str "") ((recsFor wid recs).map nameContrib)
      ∧ info.image_url = firstD PyVal.toBool (.str "") ((recsFor wid recs).map imageContrib)
      ∧ info.author_id = firstD PyVal.toBool (.str "") ((recsFor wid recs).map authorIdContrib)
      ∧ info.author_name
          = firstD PyVal.toBool (.str "") ((recsFor wid recs).map authorNameContrib)
      ∧ info.bioLinks
          = firstD (fun c => c != "NA") "" ((recsFor wid recs).map PVA.bioLinksContrib)
      ∧ info.bio = firstD (fun c => c != "NA") "" ((recsFor wid recs).map PVA.bioContrib)
      ∧ info.heat = firstD (fun q => q != 0) 0 ((recsFor wid recs).map heatContrib)
      ∧ info.popularity = firstD (fun q => q != 0) 0 ((recsFor wid recs).map popularityContrib))
    ∧ (∀ (j : PVA.WorldInfo) (r : PyVal),
        (j.name.toBool = true → (PVA.stepRecord j r).name = j.name)
        ∧ (j.image_url.toBool = true → (PVA.stepRecord j r).image_url = j.image_url)
        ∧ (j.author_id.toBool = true → (PVA.stepRecord j r).author_id = j.author_id)
        ∧ (j.author_name.toBool = true → (PVA.stepRecord j r).author_name = j.author_name)
        ∧ (j.bioLinks ≠ "" → j.bioLinks ≠ "NA" → (PVA.stepRecord j r).bioLinks = j.bioLinks)
        ∧ (j.bio ≠ "" → j.bio ≠ "NA" → (PVA.stepRecord j r).bio = j.bio)
        ∧ (j.heat ≠ 0 → (PVA.stepRecord j r).heat = j.heat)
        ∧ (j.popularity ≠ 0 → (PVA.stepRecord j r).popularity = j.popularity)) := by
  have hinfo : info = PVA.accumulatorFor wid recs := by
    rw [PVA.assocLookup_aggregate] at hacc
    by_cases hl : recsFor wid recs = []
    · rw [if_pos hl] at hacc
      exact absurd hacc (by simp)
    · rw [if_neg hl] at hacc
      exact (Option.some.inj hacc).symm
  subst hinfo
  constructor
  · unfold PVA.accumulatorFor
    refine ⟨?_, ?_, ?_, ?_, ?_, ?_, ?_, ?_⟩
    · rw [PVA.foldl_name]
      show stick PyVal.toBool (.str "") _ = _
      apply stick_eq_firstD
      · rfl
      · intro c hc hcb
        obtain ⟨r, hr, rfl⟩ := List.mem_map.1 hc
        exact str_contrib_eq_default _ (hname r hr) hcb
    · rw [PVA.foldl_image_url]
      show stick PyVal.toBool (.str "") _ = _
      apply stick_eq_firstD
      · rfl
      · intro c hc hcb
        obtain ⟨r, hr, rfl⟩ := List.mem_map.1 hc
        exact str_contrib_eq_default _ (himg r hr) hcb
    · rw [PVA.foldl_author_id]
      show stick PyVal.toBool (.str "") _ = _
      apply stick_eq_firstD
      · rfl
      · intro c hc hcb
        obtain ⟨r, hr, rfl⟩ := List.mem_map.1 hc
        exact str_contrib_eq_default _ (haid r hr) hcb
    · rw [PVA.foldl_author_name]
      show stick PyVal.toBool (.str "") _ = _
      apply stick_eq_firstD
      · rfl
      · intro c hc hcb
        obtain ⟨r, hr, rfl⟩ := List.mem_map.1 hc
        exact str_contrib_eq_default _ (hanm r hr) hcb
    · rw [PVA.foldl_bioLinks]
      show stickNA "" _ = _
      apply stickNA_eq_firstD
      intro c hc
      obtain ⟨r, hr, rfl⟩ := List.mem_map.1 hc
      exact hbl r hr
    · rw [PVA.foldl_bio]
      show stickNA "" _ = _
      apply stickNA_eq_firstD
      intro c hc
      obtain ⟨r, hr, rfl⟩ := List.mem_map.1 hc
      exact hbio r hr
    · rw [PVA.foldl_heat]
      show stick (fun q => q != 0) 0 _ = _
      apply stick_eq_firstD
      · rfl
      · intro c _ hcb
        simpa using hcb
    · rw [PVA.foldl_popularity]
      show stick (fun q => q != 0) 0 _ = _
      apply stick_eq_firstD
      · rfl
      · intro c _ hcb
        simpa using hcb
  · intro j r
    refine ⟨?_, ?_, ?_, ?_, ?_, ?_, ?_, ?_⟩
    · intro hb
      simp [PVA.stepRecord, hb]
    · intro hb
      simp [PVA.stepRecord, hb]
    · intro hb
      simp [PVA.stepRecord, hb]
    · intro hb
      simp [PVA.stepRecord, hb]
    · intro h1 h2
      simp [PVA.stepRecord, h1, h2]
    · intro h1 h2
      simp [PVA.stepRecord, h1, h2]
    · intro h
      simp [PVA.stepRecord, h]
    · intro h
      simp [PVA.stepRecord, h]

set_option maxRecDepth 4000 in
/-- Witness for C1 on two conflicting observations of world `w`: the first
record's name, heat and bio win; the second record's image url is taken
because the first supplied none. -/
theorem c1_witness :
    ((assocLookup (PVA.aggregate_world_data stickyRecs) (.str "w")).getD
      PVA.defaultWorldInfo).name = .str "First"
    ∧ ((assocLookup (PVA.aggregate_world_data stickyRecs) (.str "w")).getD
      PVA.defaultWorldInfo).heat = 5 / 2
    ∧ ((assocLookup (PVA.aggregate_world_data stickyRecs) (.str "w")).getD
      PVA.defaultWorldInfo).bio = "hello"
    ∧ ((assocLookup (PVA.aggregate_world_data stickyRecs) (.str "w")).getD
      PVA.defaultWorldInfo).image_url = .str "http://img" := by
  have hacc : assocLookup (PVA.aggregate_world_data stickyRecs) (.str "w") =
      some ((assocLookup (PVA.aggregate_world_data stickyRecs) (.str "w")).getD
        PVA.defaultWorldInfo) := by
    with_unfolding_all rfl
  have h := c1_sticky_fields_first_wins stickyRecs (.str "w") _ hacc
    (by with_unfolding_all decide) (by with_unfolding_all decide)
    (by with_unfolding_all decide) (by with_unfolding_all decide)
    (by with_unfolding_all decide) (by with_unfolding_all decide)
  refine ⟨?_, ?_, ?_, ?_⟩
  · exact h.1.1.trans (by with_unfolding_all rfl)
  · exact h.1.2.2.2.2.2.2.1.trans (by with_unfolding_all rfl)
  · exact h.1.2.2.2.2.2.1.trans (by with_unfolding_all rfl)
  · exact h.1.2.1.trans (by with_unfolding_all rfl)

set_option maxRecDepth 4000 in
/-- **C4** (counterexample): a surviving world none of whose observations
carried a bio renders the bio cell as the empty string, not as the literal
`"NA"` the claim requires — `write_csv_output` has no `"NA"` fallback for
`bio`/`bioLinks`, unlike the three url/author columns. -/
theorem c4_counterexample :
    ((PVA.csvRows (PVA.pipeline sevenRecs PVA.defaultConfig)).headD []).getD 13 (.str "X")
      = .str ""
    ∧ ((PVA.csvRows (PVA.pipeline sevenRecs PVA.defaultConfig)).headD []).getD 13 (.str "X")
      ≠ .str "NA" := by
  constructor
  · with_unfolding_all rfl
  · with_unfolding_all decide

/-- **C4** (amended): in an emitted row, absent image url, author id and
author name render as the literal `"NA"`; the bio-description and
social-links cells render the accumulator's stored string, which is the
*empty string* (not `"NA"`) when no observation ever supplied a non-sentinel
value for them. -/
theorem c4_absent_fields_rendering (recs : List PyVal) (cfg : PVA.Config) (wid : PyVal)
    (s : PVA.WorldSummary) (hmem : (wid, s) ∈ PVA.pipeline recs cfg) :
    (s.image_url.toBool = false → (PVA.csvRow wid s).get? 10 = some (.str "NA"))
    ∧ (s.author_id.toBool = false → (PVA.csvRow wid s).get? 11 = some (.str "NA"))
    ∧ (s.author_name.toBool = false → (PVA.csvRow wid s).get? 12 = some (.str "NA"))
    ∧ ((∀ r ∈ recsFor wid recs, PVA.bioContrib r = "NA") →
        (PVA.csvRow wid s).get? 13 = some (.str ""))
    ∧ ((∀ r ∈ recsFor wid recs, PVA.bioLinksContrib r = "NA") →
        (PVA.csvRow wid s).get? 14 = some (.str "")) := by
  obtain ⟨_, _, _, rfl⟩ := (PVA.mem_pipeline_iff recs cfg wid s).1 hmem
  refine ⟨?_, ?_, ?_, ?_, ?_⟩
  · intro h
    simp [PVA.csvRow, h]
  · intro h
    simp [PVA.csvRow, h]
  · intro h
    simp [PVA.csvRow, h]
  · intro hall
    have hbio : (PVA.accumulatorFor wid recs).bio = "" := by
      unfold PVA.accumulatorFor
      rw [PVA.foldl_bio]
      show stickNA "" _ = ""
      apply stickNA_all_NA
      intro c hc
      obtain ⟨r, hr, rfl⟩ := List.mem_map.1 hc
      exact hall r hr
    have hrow : (PVA.csvRow wid (PVA.mkSummary (PVA.accumulatorFor wid recs) cfg)).get? 13
        = some (PyVal.str (PVA.accumulatorFor wid recs).bio) := rfl
    rw [hrow, hbio]
  · intro hall
    have hbl : (PVA.accumulatorFor wid recs).bioLinks = "" := by
      unfold PVA.accumulatorFor
      rw [PVA.foldl_bioLinks]
      show stickNA "" _ = ""
      apply stickNA_all_NA
      intro c hc
      obtain ⟨r, hr, rfl⟩ := List.mem_map.1 hc
      exact hall r hr
    have hrow : (PVA.csvRow wid (PVA.mkSummary (PVA.accumulatorFor wid recs) cfg)).get? 14
        = some (PyVal.str (PVA.accumulatorFor wid recs).bioLinks) := rfl
    rw [hrow, hbl]

set_option maxRecDepth 4000 in
/-- Witness for C4's amended theorem on the 7-observation world with no
bio/url/author data under the default policy. -/
theorem c4_witness :
    (PVA.csvRow (.str "w")
        (PVA.mkSummary (PVA.accumulatorFor (.str "w") sevenRecs) PVA.defaultConfig)).get? 13
      = some (.str "")
    ∧ (PVA.csvRow (.str "w")
        (PVA.mkSummary (PVA.accumulatorFor (.str "w") sevenRecs) PVA.defaultConfig)).get? 10
      = some (.str "NA") := by
  have h := c4_absent_fields_rendering sevenRecs PVA.defaultConfig (.str "w")
    (PVA.mkSummary (PVA.accumulatorFor (.str "w") sevenRecs) PVA.defaultConfig)
    (by with_unfolding_all decide)
  exact ⟨h.2.2.2.1 (by with_unfolding_all decide), h.1 (by with_unfolding_all rfl)⟩

/-- Helper for C9: every accumulator produced by the current variant has at
least one occurrence. -/
theorem PVA.occ_pos_of_mem_aggregate (recs : List PyVal) (p : PyVal × PVA.WorldInfo)
    (h : p ∈ PVA.aggregate_world_data recs) : 1 ≤ p.2.occurrences := by
  unfold PVA.aggregate_world_data at h
  rw [PVA.processRecord_eq_gen] at h
  refine foldl_genProcess_invariant PVA.stepRecord PVA.defaultWorldInfo
    (fun i => 1 ≤ i.occurrences) recs [] ?_ ?_ p h
  · intro i r _ _
    show 1 ≤ (PVA.stepRecord i r).occurrences
    simp [PVA.stepRecord]
  · intro q hq
    simp at hq

/-- Helper for C9: both variants build the same keyed sum/occurrence data in
the same insertion order (identifier resolution and occupant coercion are
identical). -/
theorem agg_proj_eq (recs : List PyVal) :
    (PVA.aggregate_world_data recs).map (fun p => (p.1, accProj p.2))
      = (AW.aggregate_world_data recs).map (fun p => (p.1, accProjAW p.2)) := by
  unfold PVA.aggregate_world_data AW.aggregate_world_data
  rw [PVA.processRecord_eq_gen, AW.processRecord_eq_gen_old]
  refine foldl_genProcess_proj PVA.stepRecord PVA.defaultWorldInfo
    AW.stepRecord AW.defaultWorldInfo accProj accProjAW ?_ rfl recs [] [] rfl
  intro iN iO r h
  have h1 : iN.occupants_sum = iO.occupants_sum := congrArg Prod.fst h
  have h2 : iN.occurrences = iO.occurrences := congrArg Prod.snd h
  show ((PVA.stepRecord iN r).occupants_sum, (PVA.stepRecord iN r).occurrences) = _
  simp [PVA.stepRecord, AW.stepRecord, accProjAW, h1, h2]

/-- Helper for C9: through the identifier/average/occurrences projection,
the current variant's surviving pre-sort list is a subsequence of the older
variant's pre-sort list. -/
theorem survivors_triples_sublist (cfg : PVA.Config)
    (ln : List (PyVal × PVA.WorldInfo)) (lo : List (PyVal × AW.WorldInfo))
    (hmap : ln.map (fun p => (p.1, accProj p.2)) = lo.map (fun p => (p.1, accProjAW p.2)))
    (hocc : ∀ e ∈ ln, 1 ≤ e.2.occurrences) :
    List.Sublist ((PVA.survivors ln cfg).map summaryTriple)
      ((lo.filterMap fun p =>
          if 0 < p.2.occurrences then some (p.1, AW.mkSummary p.2) else none).map
        summaryTripleAW) := by
  induction ln generalizing lo with
  | nil =>
      have hlo : lo = [] := by
        cases lo with
        | nil => rfl
        | cons q lq => simp at hmap
      subst hlo
      simp [PVA.survivors]
  | cons p ln ih =>
      cases lo with
      | nil => simp at hmap
      | cons q lq =>
          simp only [List.map_cons, List.cons.injEq] at hmap
          obtain ⟨hhead, htail⟩ := hmap
          have hk : p.1 = q.1 := congrArg Prod.fst hhead
          have hproj : accProj p.2 = accProjAW q.2 := congrArg Prod.snd hhead
          have hsum : p.2.occupants_sum = q.2.occupants_sum := congrArg Prod.fst hproj
          have hoccn : p.2.occurrences = q.2.occurrences := congrArg Prod.snd hproj
          have hq_pos : 0 < q.2.occurrences := by
            rw [← hoccn]
            exact hocc p (List.mem_cons_self p ln)
          have ihl := ih lq htail (fun e he => hocc e (List.mem_cons_of_mem p he))
          have hfq : (if 0 < q.2.occurrences then some (q.1, AW.mkSummary q.2) else none)
              = some (q.1, AW.mkSummary q.2) := if_pos hq_pos
          rw [List.filterMap_cons, hfq, List.map_cons]
          unfold PVA.survivors
          rw [List.filterMap_cons]
          by_cases h1 : cfg.MIN_OCCURRENCES ≤ (p.2.occurrences : ℤ)
          · rw [if_pos h1]
            by_cases h2 : cfg.MIN_MARKETING_SPEND ≤
                (PVA.mkSummary p.2 cfg).max_marketing_spend
            · rw [if_pos h2, List.map_cons]
              have htriple : summaryTriple (p.1, PVA.mkSummary p.2 cfg)
                  = summaryTripleAW (q.1, AW.mkSummary q.2) := by
                show (p.1, pyRound2 ((p.2.occupants_sum : ℚ) / (p.2.occurrences : ℚ)),
                    p.2.occurrences) = _
                rw [hk, hsum, hoccn]
                rfl
              rw [htriple]
              exact ihl.cons₂ _
            · rw [if_neg h2]
              exact ihl.cons _
          · rw [if_neg h1]
            exact ihl.cons _

/-- **C9** (confirmed): viewed through the (world id, rounded average,
occurrence count) projection, the current variant's output is a subsequence
of the older unfiltered variant's output — both orders agree — and every
emitted triple of the current variant appears, with identical average and
count, in the older variant's output.  The two variants share accumulation,
averaging and ranking, and differ only in filtering and the extra derived
fields. -/
theorem c9_refinement_of_older_variant (recs : List PyVal) (cfg : PVA.Config) :
    List.Sublist ((PVA.pipeline recs cfg).map summaryTriple)
      ((AW.pipeline recs).map summaryTripleAW)
    ∧ ∀ t ∈ (PVA.pipeline recs cfg).map summaryTriple,
        t ∈ (AW.pipeline recs).map summaryTripleAW := by
  have hpre := survivors_triples_sublist cfg (PVA.aggregate_world_data recs)
    (AW.aggregate_world_data recs) (agg_proj_eq recs)
    (fun e he => PVA.occ_pos_of_mem_aggregate recs e he)
  have hnew : (PVA.pipeline recs cfg).map summaryTriple
      = sortByDesc tripleKey
          ((PVA.survivors (PVA.aggregate_world_data recs) cfg).map summaryTriple) := by
    unfold PVA.pipeline PVA.calculate_averages_and_sort
    exact map_sortByDesc _ tripleKey summaryTriple (fun a => rfl) _
  have hold : (AW.pipeline recs).map summaryTripleAW
      = sortByDesc tripleKey
          (((AW.aggregate_world_data recs).filterMap fun p =>
              if 0 < p.2.occurrences then some (p.1, AW.mkSummary p.2) else none).map
            summaryTripleAW) := by
    unfold AW.pipeline AW.calculate_averages_and_sort
    exact map_sortByDesc _ tripleKey summaryTripleAW (fun a => rfl) _
  have hsub : List.Sublist ((PVA.pipeline recs cfg).map summaryTriple)
      ((AW.pipeline recs).map summaryTripleAW) := by
    rw [hnew, hold]
    exact sortByDesc_sublist tripleKey hpre
  exact ⟨hsub, fun t ht => hsub.subset ht⟩

set_option maxRecDepth 4000 in
/-- Witness for C9 on the three-world input: the projected new output is a
subsequence of the old output, and world B's triple appears in the older
variant's output. -/
theorem c9_witness :
    List.Sublist ((PVA.pipeline orderingRecs permissiveConfig).map summaryTriple)
      ((AW.pipeline orderingRecs).map summaryTripleAW)
    ∧ (PyVal.str "B", (50 : ℚ), 1) ∈ (AW.pipeline orderingRecs).map summaryTripleAW := by
  have h := c9_refinement_of_older_variant orderingRecs permissiveConfig
  exact ⟨h.1, h.2 (.str "B", 50, 1) (by with_unfolding_all decide)⟩
